import Mathlib

/-!
# Verification of the DBMS-project ETL reconciliation logic

A shallow embedding, in Lean 4, of the record-linkage / normalization core of
`etl.py` (class `DatabaseETL`): the Name Normalizer
(`_extract_states_from_area_name`, `_normalize_state_name`), the Region and
Period Resolvers (`_get_or_create_region`, `_get_or_create_period`), the period
parser (`_parse_period`), the Value Aggregator inside `load_food_prices` /
`load_cpi_data`, and the `execute_etl` orchestration.

Modelling conventions:
* Python strings are Lean `String`s; the handful of Python string methods used
  by the source (`split` on a one-character separator, `strip`, `replace(c,'')`,
  `startswith` on a one-character pattern, `int(...)`) are re-implemented below
  on the underlying `List Char` so that they compute by kernel reduction.
* Numeric observation values (Python floats obtained from `pd.to_numeric`) are
  modelled as `ℚ`; a NaN produced by `errors='coerce'` is `Option.none`.
* The MySQL connection is replaced by an explicit database state `DB`; the
  `INSERT ... ON DUPLICATE KEY UPDATE id=LAST_INSERT_ID(id)` upsert is a pure
  function on that state (see `DB.insertRegion`).
* Python exceptions are `Except String`; `pd.isna` guards become `Option`
  matches.
-/

namespace DbmsEtl

/-! ## Python string primitives -/

/-- Python `str.split(sep)` for a one-character separator, on the character
list of the string.  `''.split(sep) = ['']`, matching Python. -/
def splitChar (sep : Char) : List Char → List (List Char)
  | [] => [[]]
  | c :: cs =>
    if c = sep then
      [] :: splitChar sep cs
    else
      match splitChar sep cs with
      | [] => [[c]]
      | h :: t => (c :: h) :: t

/-- Python `str.strip()` on a character list: drop whitespace from both ends. -/
def stripChars (l : List Char) : List Char :=
  ((l.dropWhile Char.isWhitespace).reverse.dropWhile Char.isWhitespace).reverse

/-- Python `str.strip()`. -/
def pyStrip (s : String) : String := String.mk (stripChars s.data)

/-- Python `str.split(sep)` (one-character separator) returning strings. -/
def pySplitOn (sep : Char) (s : String) : List String :=
  (splitChar sep s.data).map String.mk

/-- Python `str.replace(c, '')` for a one-character pattern: removes every
occurrence of `c`. -/
def pyRemoveChar (c : Char) (s : String) : String :=
  String.mk (s.data.filter (fun c' => c' ≠ c))

/-- Python `str.startswith(c)` for a one-character pattern. -/
def pyStartsWithChar (c : Char) (s : String) : Bool :=
  match s.data with
  | [] => false
  | c' :: _ => c' = c

/-- Parse a nonempty all-digit character list as a natural number. -/
def digitsToNat? (l : List Char) : Option Nat :=
  if l ≠ [] ∧ l.all Char.isDigit then
    some (l.foldl (fun n c => n * 10 + (c.toNat - '0'.toNat)) 0)
  else
    none

/-- Python `int(s)` restricted to the nonnegative decimal literals that occur
in the ETL's period codes (`"07"`, `"02"`, ...); anything else raises, which is
modelled as `none`. -/
def pyInt? (s : String) : Option Nat := digitsToNat? s.data

/-- Unsigned decimal literal `digits[.digits]` as a rational. -/
def pyFloatAbs? (l : List Char) : Option ℚ :=
  match splitChar '.' l with
  | [ip] => (digitsToNat? ip).map (fun n => (n : ℚ))
  | [ip, fp] =>
    match digitsToNat? ip, digitsToNat? fp with
    | some a, some b => some ((a : ℚ) + (b : ℚ) / ((10 : ℚ) ^ fp.length))
    | _, _ => none
  | _ => none

/-- Python `float(s)` restricted to decimal literals `[-]digits[.digits]` as
they occur in the CPI `base_period` annotations (e.g. `"100"`); anything else
raises, which is modelled as `none`. -/
def pyFloat? (s : String) : Option ℚ :=
  match s.data with
  | '-' :: rest => (pyFloatAbs? rest).map (fun q => -q)
  | l => pyFloatAbs? l

/-! ## Name Normalizer (`_extract_states_from_area_name`, `_normalize_state_name`) -/

/-- `_extract_states_from_area_name`: extract state codes from an area name
like `'City1-City2, ST1-ST2'` or `'City, ST'`, with the two hard-coded special
cases mapped directly to state names. -/
def extract_states_from_area_name (area_name : String) : List String :=
  if area_name = "Urban Alaska" then ["Alaska"]
  else if area_name = "Urban Hawaii" then ["Hawaii"]
  else
    match pySplitOn ',' area_name with
    | _ :: p1 :: _ => (pySplitOn '-' (pyStrip p1)).map pyStrip
    | _ => []

/-- The fixed `state_map` lookup table of `_normalize_state_name`:
the 50 states plus the District of Columbia. -/
def state_table : List (String × String) :=
  [("AK", "Alaska"), ("AL", "Alabama"), ("AR", "Arkansas"), ("AZ", "Arizona"),
   ("CA", "California"), ("CO", "Colorado"), ("CT", "Connecticut"), ("DC", "District of Columbia"),
   ("DE", "Delaware"), ("FL", "Florida"), ("GA", "Georgia"), ("HI", "Hawaii"),
   ("IA", "Iowa"), ("ID", "Idaho"), ("IL", "Illinois"), ("IN", "Indiana"),
   ("KS", "Kansas"), ("KY", "Kentucky"), ("LA", "Louisiana"), ("MA", "Massachusetts"),
   ("MD", "Maryland"), ("ME", "Maine"), ("MI", "Michigan"), ("MN", "Minnesota"),
   ("MO", "Missouri"), ("MS", "Mississippi"), ("MT", "Montana"), ("NC", "North Carolina"),
   ("ND", "North Dakota"), ("NE", "Nebraska"), ("NH", "New Hampshire"), ("NJ", "New Jersey"),
   ("NM", "New Mexico"), ("NV", "Nevada"), ("NY", "New York"), ("OH", "Ohio"),
   ("OK", "Oklahoma"), ("OR", "Oregon"), ("PA", "Pennsylvania"), ("RI", "Rhode Island"),
   ("SC", "South Carolina"), ("SD", "South Dakota"), ("TN", "Tennessee"), ("TX", "Texas"),
   ("UT", "Utah"), ("VA", "Virginia"), ("VT", "Vermont"), ("WA", "Washington"),
   ("WI", "Wisconsin"), ("WV", "West Virginia"), ("WY", "Wyoming")]

/-- Association-list lookup with decidable key equality (Python `dict.get`). -/
def alookup {κ α : Type} [DecidableEq κ] (k : κ) : List (κ × α) → Option α
  | [] => none
  | p :: rest => if p.1 = k then some p.2 else alookup k rest

/-- `_normalize_state_name`: `state_map.get(state_code, state_code)`. -/
def normalize_state_name (state_code : String) : String :=
  match alookup state_code state_table with
  | some full => full
  | none => state_code


/-! ## Database state and the Region / Period Resolvers -/

/-- One row of the `regions` table. -/
structure RegionRow where
  region_name : String
  region_type : String
  region_id : Nat
deriving DecidableEq

/-- One row of the `time_periods` table. -/
structure PeriodRow where
  year : Nat
  month : Option Nat
  period_type : String
  period_id : Nat
deriving DecidableEq

/-- The MySQL database as seen by the ETL.

Modelled from the spec: the relational schema itself is not under `src/`; per
the spec each table carries an upsert-on-conflict write pattern keyed by the
natural key (`region_name` for `regions`, `(year, month)` for `time_periods`),
so `INSERT ... ON DUPLICATE KEY UPDATE id=LAST_INSERT_ID(id)` returns the
existing row's surrogate id on conflict and a fresh auto-increment id
otherwise. -/
structure DB where
  regions : List RegionRow
  time_periods : List PeriodRow
  next_region_id : Nat
  next_period_id : Nat
deriving DecidableEq

/-- First `regions` row with the given name, if any (the unique-key probe). -/
def DB.findRegion (db : DB) (name : String) : Option RegionRow :=
  db.regions.find? (fun r => r.region_name = name)

/-- First `time_periods` row with the given natural key, if any. -/
def DB.findPeriod (db : DB) (year : Nat) (month : Option Nat) : Option PeriodRow :=
  db.time_periods.find? (fun r => r.year = year ∧ r.month = month)

/-- `INSERT INTO regions ... ON DUPLICATE KEY UPDATE region_id=LAST_INSERT_ID(region_id)`
followed by reading `cursor.lastrowid`. -/
def DB.insertRegion (db : DB) (name ty : String) : Nat × DB :=
  match db.findRegion name with
  | some r => (r.region_id, db)
  | none =>
    (db.next_region_id,
     { db with
        regions := db.regions ++ [⟨name, ty, db.next_region_id⟩],
        next_region_id := db.next_region_id + 1 })

/-- `INSERT INTO time_periods ... ON DUPLICATE KEY UPDATE period_id=LAST_INSERT_ID(period_id)`
followed by reading `cursor.lastrowid`. -/
def DB.insertPeriod (db : DB) (year : Nat) (month : Option Nat) (ty : String) : Nat × DB :=
  match db.findPeriod year month with
  | some r => (r.period_id, db)
  | none =>
    (db.next_period_id,
     { db with
        time_periods := db.time_periods ++ [⟨year, month, ty, db.next_period_id⟩],
        next_period_id := db.next_period_id + 1 })

/-- The mutable state of a `DatabaseETL` instance during one run: the database
connection plus the two in-memory caches `region_map` and `period_map`. -/
structure ETLState where
  db : DB
  region_map : List (String × Nat)
  period_map : List ((Nat × Option Nat) × Nat)
deriving DecidableEq

/-- The state of a freshly constructed `DatabaseETL` on an empty database. -/
def etlInit : ETLState :=
  { db := ⟨[], [], 0, 0⟩, region_map := [], period_map := [] }

/-- The per-state-code loop body of `_get_or_create_region`: for each code,
normalize it, consult the cache, and otherwise upsert a `regions` row with the
literal type `'state'` and cache the resulting id. -/
def resolveStates (s : ETLState) : List String → List Nat × ETLState
  | [] => ([], s)
  | code :: restCodes =>
    match alookup (normalize_state_name code) s.region_map with
    | some rid =>
      ((resolveStates s restCodes).1.cons rid, (resolveStates s restCodes).2)
    | none =>
      ((resolveStates
          { s with
              db := (s.db.insertRegion (normalize_state_name code) "state").2,
              region_map := s.region_map ++
                [(normalize_state_name code,
                  (s.db.insertRegion (normalize_state_name code) "state").1)] }
          restCodes).1.cons (s.db.insertRegion (normalize_state_name code) "state").1,
       (resolveStates
          { s with
              db := (s.db.insertRegion (normalize_state_name code) "state").2,
              region_map := s.region_map ++
                [(normalize_state_name code,
                  (s.db.insertRegion (normalize_state_name code) "state").1)] }
          restCodes).2)

/-- The fall-through tail of `_get_or_create_region`: cache-or-upsert a single
region under the caller's declared type. -/
def getOrCreatePlainRegion (s : ETLState) (region_name region_type : String) :
    List Nat × ETLState :=
  match alookup region_name s.region_map with
  | some rid => ([rid], s)
  | none =>
    ([(s.db.insertRegion region_name region_type).1],
     { s with
        db := (s.db.insertRegion region_name region_type).2,
        region_map := s.region_map ++
          [(region_name, (s.db.insertRegion region_name region_type).1)] })

/-- `_get_or_create_region`: returns the list of region ids for a raw area
label, fanning a comma-delimited multi-state label out into one id per state. -/
def get_or_create_region (s : ETLState) (region_name region_type : String) :
    List Nat × ETLState :=
  if ',' ∈ region_name.data ∨ region_name = "Urban Alaska" ∨ region_name = "Urban Hawaii" then
    if extract_states_from_area_name region_name ≠ [] then
      resolveStates s (extract_states_from_area_name region_name)
    else
      getOrCreatePlainRegion s region_name region_type
  else
    getOrCreatePlainRegion s region_name region_type

/-- `_get_or_create_period`: cache-or-upsert a time period keyed by
`(year, month)`; the stored `period_type` reproduces the Python truthiness test
`'monthly' if month else 'yearly'` (absent month or month `0` give
`'yearly'`). -/
def get_or_create_period (s : ETLState) (year : Nat) (month : Option Nat) :
    Nat × ETLState :=
  match alookup (year, month) s.period_map with
  | some pid => (pid, s)
  | none =>
    ((s.db.insertPeriod year month (if month.getD 0 ≠ 0 then "monthly" else "yearly")).1,
     { s with
        db := (s.db.insertPeriod year month
          (if month.getD 0 ≠ 0 then "monthly" else "yearly")).2,
        period_map := s.period_map ++
          [((year, month),
            (s.db.insertPeriod year month
              (if month.getD 0 ≠ 0 then "monthly" else "yearly")).1)] })


/-! ## Well-formedness invariant of the ETL state

The caches and the database tables a run can produce satisfy: table natural
keys and surrogate ids are duplicate-free, ids stay below the auto-increment
counters, and every cache entry mirrors a table row. -/

/-- Consistency invariant maintained by the resolvers within one run. -/
structure Inv (s : ETLState) : Prop where
  rdb_names : (s.db.regions.map RegionRow.region_name).Nodup
  rdb_ids : (s.db.regions.map RegionRow.region_id).Nodup
  rdb_lt : ∀ r ∈ s.db.regions, r.region_id < s.db.next_region_id
  rmap_db : ∀ p ∈ s.region_map,
    ∃ r, r ∈ s.db.regions ∧ r.region_name = p.1 ∧ r.region_id = p.2
  pdb_keys : (s.db.time_periods.map (fun r => (r.year, r.month))).Nodup
  pdb_ids : (s.db.time_periods.map PeriodRow.period_id).Nodup
  pdb_lt : ∀ r ∈ s.db.time_periods, r.period_id < s.db.next_period_id
  pmap_db : ∀ p ∈ s.period_map,
    ∃ r, r ∈ s.db.time_periods ∧ r.year = p.1.1 ∧ r.month = p.1.2 ∧ r.period_id = p.2

/-! ## Period parsing (`_parse_period`) and the two fact-table loads -/

/-- `_parse_period`: convert a period string to a month number.  `"Mxx"` yields
the month digits, `"Sxx"` maps a semester to its middle month, anything else
raises `ValueError` (modelled as `Except.error`), as does a non-numeric
remainder under `int(...)`. -/
def parse_period (p : String) : Except String Nat :=
  if pyStartsWithChar 'M' p then
    match pyInt? (pyRemoveChar 'M' p) with
    | some n => Except.ok n
    | none => Except.error ("invalid literal for int: " ++ pyRemoveChar 'M' p)
  else if pyStartsWithChar 'S' p then
    match pyInt? (pyRemoveChar 'S' p) with
    | some n => Except.ok (n * 6)
    | none => Except.error ("invalid literal for int: " ++ pyRemoveChar 'S' p)
  else
    Except.error ("Unknown period format: " ++ p)

/-- One row of `food_prices_series.csv` / `cpi_series.csv` after
`pd.to_numeric(..., errors='coerce')`: a missing or unparseable value is
`none` (NaN). -/
structure SeriesRow where
  series_id : String
  year : Nat
  period : String
  value : Option ℚ
deriving DecidableEq

/-- The metadata joined to a food series (`food_prices_metadata.csv`). -/
structure FoodMetaRow where
  area_code : String
  item_code : String
deriving DecidableEq

/-- The metadata joined to a CPI series (`cpi_metadata.csv`), including the raw
`base_period` annotation such as `"1982-84=100"`. -/
structure CpiMetaRow where
  area_code : String
  item_code : String
  base_period : String
deriving DecidableEq

/-- Aggregation key of `state_values`: `(region_id, period_id, item_code)`. -/
abbrev SVKey := Nat × Nat × String

/-- The Python idiom `if key not in d: d[key] = []` followed by
`d[key].append(v)` on an insertion-ordered dict. -/
def appendAt {κ α : Type} [DecidableEq κ] (sv : List (κ × List α)) (k : κ) (v : α) :
    List (κ × List α) :=
  match sv with
  | [] => [(k, [v])]
  | e :: rest => if e.1 = k then (e.1, e.2 ++ [v]) :: rest else e :: appendAt rest k v

/-- The body of the per-series loop of `load_food_prices`.  The pandas joins
`metadata_df[metadata_df.series_id == ...].iloc[0]` and
`areas_df[areas_df.area_code == ...].iloc[0]` are modelled as total lookup
functions `meta` and `areas` (the source reads the first matching row and
would raise if none existed). -/
def food_process_row (meta : String → FoodMetaRow) (areas : String → String)
    (st : ETLState) (sv : List (SVKey × List ℚ)) (row : SeriesRow) :
    Except String (ETLState × List (SVKey × List ℚ)) :=
  match row.value with
  | none => Except.ok (st, sv)
  | some v =>
    let rg := get_or_create_region st (areas (meta row.series_id).area_code) "region"
    match pyInt? (pyRemoveChar 'M' row.period) with
    | none => Except.error ("invalid literal for int: " ++ row.period)
    | some mon =>
      let p1 := get_or_create_period rg.2 row.year (some mon)
      let p2 := get_or_create_period p1.2 row.year none
      Except.ok (p2.2,
        rg.1.foldl (fun acc rid =>
          appendAt (appendAt acc (rid, p1.1, (meta row.series_id).item_code) v)
            (rid, p2.1, (meta row.series_id).item_code) v) sv)

/-- The collection phase of `load_food_prices`: fold the per-series loop over
the CSV rows, building `state_values`. -/
def food_collect (meta : String → FoodMetaRow) (areas : String → String)
    (s0 : ETLState) (rows : List SeriesRow) :
    Except String (ETLState × List (SVKey × List ℚ)) :=
  rows.foldlM (fun acc row => food_process_row meta areas acc.1 acc.2 row) (s0, [])

/-- Arithmetic mean of a list of rationals. -/
def mean (l : List ℚ) : ℚ := l.sum / l.length

/-- The insert phase of `load_food_prices`: one upsert per key, writing
`sum(values)/len(values)`, skipping keys whose list is empty. -/
def food_inserts (sv : List (SVKey × List ℚ)) : List (SVKey × ℚ) :=
  sv.filterMap (fun e =>
    if e.2.isEmpty then none else some (e.1, e.2.sum / e.2.length))

/-- A collected CPI observation: `(value, base_period, base_value)`. -/
abbrev CpiTuple := ℚ × String × ℚ

/-- The body of the per-series loop of `load_cpi_data`.  The `base_period`
split and `float(...)` happen before the `try` block (their failures abort the
load); a `ValueError` from `_parse_period` is caught, a warning is recorded,
and the row is skipped with the loop continuing — note the region upsert has
already happened by then. -/
def cpi_process_row (meta : String → CpiMetaRow) (areas : String → String)
    (st : ETLState) (sv : List (SVKey × List CpiTuple)) (warns : List String)
    (row : SeriesRow) :
    Except String (ETLState × List (SVKey × List CpiTuple) × List String) :=
  match row.value with
  | none => Except.ok (st, sv, warns)
  | some v =>
    match pySplitOn '=' (meta row.series_id).base_period with
    | bp0 :: bpv :: _ =>
      match pyFloat? (pyStrip bpv) with
      | none =>
        Except.error ("could not convert string to float: " ++ pyStrip bpv)
      | some bv =>
        let rg := get_or_create_region st (areas (meta row.series_id).area_code) "region"
        match parse_period row.period with
        | Except.error e =>
          Except.ok (rg.2, sv, warns ++ ["Skipping invalid period format: " ++ e])
        | Except.ok mon =>
          let p1 := get_or_create_period rg.2 row.year (some mon)
          let p2 := get_or_create_period p1.2 row.year none
          Except.ok (p2.2,
            rg.1.foldl (fun acc rid =>
              appendAt
                (appendAt acc (rid, p1.1, (meta row.series_id).item_code)
                  (v, pyStrip bp0, bv))
                (rid, p2.1, (meta row.series_id).item_code) (v, pyStrip bp0, bv)) sv,
            warns)
    | _ =>
      Except.error ("list index out of range: " ++ (meta row.series_id).base_period)

/-- The collection phase of `load_cpi_data`, also accumulating the warnings
logged for skipped rows. -/
def cpi_collect (meta : String → CpiMetaRow) (areas : String → String)
    (s0 : ETLState) (rows : List SeriesRow) :
    Except String (ETLState × List (SVKey × List CpiTuple) × List String) :=
  rows.foldlM (fun acc row => cpi_process_row meta areas acc.1 acc.2.1 acc.2.2 row)
    (s0, [], [])

/-- The Python counting idiom `if k not in d: d[k] = 0; d[k] += 1` on an
insertion-ordered dict. -/
def bump_count (acc : List ((String × ℚ) × Nat)) (k : String × ℚ) :
    List ((String × ℚ) × Nat) :=
  match acc with
  | [] => [(k, 1)]
  | e :: rest => if e.1 = k then (e.1, e.2 + 1) :: rest else e :: bump_count rest k

/-- Build the `base_periods` occurrence-count dict for one aggregation key. -/
def build_base_counts (ts : List CpiTuple) : List ((String × ℚ) × Nat) :=
  ts.foldl (fun acc t => bump_count acc (t.2.1, t.2.2)) []

/-- Python `max(items, key=lambda x: x[1])`: the first item attaining the
maximal count in iteration order (`max` keeps the incumbent on ties). -/
def py_max_by_count (l : List ((String × ℚ) × Nat)) :
    Option ((String × ℚ) × Nat) :=
  match l with
  | [] => none
  | x :: xs => some (xs.foldl (fun m y => if y.2 > m.2 then y else m) x)

/-- The `(base_period, base_value)` pair `load_cpi_data` selects for a key. -/
def choose_base (ts : List CpiTuple) : Option (String × ℚ) :=
  (py_max_by_count (build_base_counts ts)).map (fun e => e.1)

/-- The insert phase of `load_cpi_data`: one upsert per key, writing the mean
of the collected values together with the selected base pair. -/
def cpi_inserts (sv : List (SVKey × List CpiTuple)) :
    List (SVKey × ℚ × String × ℚ) :=
  sv.filterMap (fun e =>
    if e.2.isEmpty then none
    else
      match choose_base e.2 with
      | some bp => some (e.1, (e.2.map (fun t => t.1)).sum / e.2.length, bp.1, bp.2)
      | none => none)

/-- Deduplication keeping first occurrences — the key order of an
insertion-ordered dict. -/
def firstSeen {α : Type} [DecidableEq α] (l : List α) : List α :=
  l.foldl (fun acc x => if x ∈ acc then acc else acc ++ [x]) []

/-- Number of occurrences of `p` in `l`. -/
def occCount {α : Type} [DecidableEq α] (p : α) (l : List α) : Nat :=
  (l.filter (fun x => x = p)).length

/-! ## `execute_etl` orchestration -/

/-- The stages of `execute_etl`, in source order, plus the `finally` close. -/
inductive EtlStage where
  | connect
  | foodCategories
  | cpiCategories
  | foodPrices
  | cpiData
  | stateFoodSales
  | regionalIncome
  | stateIncome
  | close
deriving DecidableEq

/-- The fixed stage order of the `try` block of `execute_etl`. -/
def etlOrder : List EtlStage :=
  [EtlStage.connect, EtlStage.foodCategories, EtlStage.cpiCategories,
   EtlStage.foodPrices, EtlStage.cpiData, EtlStage.stateFoodSales,
   EtlStage.regionalIncome, EtlStage.stateIncome]

/-- Observable outcome of one `execute_etl` call: which stages ran (in order),
what was logged by the `except` clause, and the exception the run re-raised,
if any. -/
structure EtlRun (E : Type) where
  executed : List EtlStage
  errorLog : List E
  result : Option E
deriving DecidableEq

/-- Run stages in order until the first failure; each stage's effectful
behaviour is abstracted by `f`, giving `some e` when the stage raises `e`. -/
def runStages {E : Type} (f : EtlStage → Option E) :
    List EtlStage → List EtlStage × Option E
  | [] => ([], none)
  | st :: rest =>
    match f st with
    | some e => ([st], some e)
    | none => ((runStages f rest).1.cons st, (runStages f rest).2)

/-- `execute_etl`: the `try` block runs the stages strictly in order with no
retries; the `except` clause logs and re-raises the first error; the `finally`
clause always runs `close` last. -/
def execute_etl {E : Type} (f : EtlStage → Option E) : EtlRun E :=
  { executed := (runStages f etlOrder).1 ++ [EtlStage.close],
    errorLog :=
      match (runStages f etlOrder).2 with
      | some e => [e]
      | none => [],
    result := (runStages f etlOrder).2 }

/-! ## Concrete fixtures used by witnesses and counterexamples -/

/-- CPI metadata fixture: every series sits in area `"0000"`, item `"SA0"`,
with base period annotation `"1982-84=100"`. -/
def exCpiMeta : String → CpiMetaRow := fun _ => ⟨"0000", "SA0", "1982-84=100"⟩

/-- Area fixture: every area code maps to the label `"St. Louis, MO"`. -/
def exAreas : String → String := fun _ => "St. Louis, MO"

/-- A series row whose period string `"Q01"` is in no recognized format. -/
def exBadRow : SeriesRow := ⟨"CUUR0000SA0", 2020, "Q01", some 5⟩

/-- A well-formed monthly series row. -/
def exGoodRow : SeriesRow := ⟨"CUUR0000SA0", 2020, "M01", some 7⟩

/-- Food metadata fixture. -/
def exFoodMeta : String → FoodMetaRow := fun _ => ⟨"0000", "FC1101"⟩

/-- Collected CPI tuples for one key: three rows annotated `"1982-84=100"` and
one annotated `"1967=100"`. -/
def exTuples : List CpiTuple :=
  [(100, "1982-84", 100), (101, "1982-84", 100), (102, "1982-84", 100),
   (99, "1967", 100)]

/-- The entries of the aggregation map whose key carries the given period id
and item code: the "Observations" recorded for that (period, item). -/
def svFilter (mpid : Nat) (itm : String) :
    List (SVKey × List ℚ) → List (SVKey × List ℚ)
  | [] => []
  | e :: rest =>
    if e.1.2.1 = mpid ∧ e.1.2.2 = itm then e :: svFilter mpid itm rest
    else svFilter mpid itm rest

/-- Fan-out postcondition after the source row for `(itm, y, mon, v)` whose
area resolved to `names` has been processed: the caches resolve the monthly
and yearly periods and every state name, and the aggregation map holds exactly
one all-`v` entry per resolved state id under the monthly period and `itm`. -/
def FanoutPost (names : List String) (itm : String) (y mon : Nat) (v : ℚ)
    (su : ETLState) (svu : List (SVKey × List ℚ)) : Prop :=
  ∃ mpid ypid ids,
    alookup (y, some mon) su.period_map = some mpid ∧
    alookup (y, (none : Option Nat)) su.period_map = some ypid ∧
    mpid ≠ ypid ∧
    List.Forall₂ (fun nm i => alookup nm su.region_map = some i) names ids ∧
    ids.Nodup ∧
    (svFilter mpid itm svu).map Prod.fst = ids.map (fun i => (i, mpid, itm)) ∧
    (∀ e ∈ svFilter mpid itm svu, e.2 ≠ [] ∧ ∀ x ∈ e.2, x = v) ∧
    (∀ e ∈ svu, e.1.2.2 = itm → (e.1.2.1 = mpid ∧ e.1.1 ∈ ids) ∨ e.1.2.1 = ypid)

/-- Food metadata fixture for the end-to-end example: series `"A"` is the
Chicago metro area, everything else the national average. -/
def exFoodMeta2 : String → FoodMetaRow :=
  fun sid => if sid = "A" then ⟨"CH", "ITEM_A"⟩ else ⟨"US", "ITEM_B"⟩

/-- Area fixture for the end-to-end example. -/
def exAreas2 : String → String :=
  fun ac => if ac = "CH" then "Chicago-Naperville, IL-IN-WI" else "U.S. City Average"

/-- The multi-state source row of the end-to-end example. -/
def exRowA : SeriesRow := ⟨"A", 2020, "M01", some 7⟩

/-- The second source row of the end-to-end example (different item). -/
def exRowB : SeriesRow := ⟨"B", 2020, "M01", some 9⟩

/-- The final ETL state of the two-row end-to-end example. -/
def exStF : ETLState :=
  { db := ⟨[⟨"Illinois", "state", 0⟩, ⟨"Indiana", "state", 1⟩, ⟨"Wisconsin", "state", 2⟩,
            ⟨"U.S. City Average", "region", 3⟩],
           [⟨2020, some 1, "monthly", 0⟩, ⟨2020, none, "yearly", 1⟩], 4, 2⟩,
    region_map := [("Illinois", 0), ("Indiana", 1), ("Wisconsin", 2), ("U.S. City Average", 3)],
    period_map := [((2020, some 1), 0), ((2020, none), 1)] }

/-- The final aggregation map of the two-row end-to-end example. -/
def exSv : List (SVKey × List ℚ) :=
  [((0, 0, "ITEM_A"), [7]), ((0, 1, "ITEM_A"), [7]), ((1, 0, "ITEM_A"), [7]),
   ((1, 1, "ITEM_A"), [7]), ((2, 0, "ITEM_A"), [7]), ((2, 1, "ITEM_A"), [7]),
   ((3, 0, "ITEM_B"), [9]), ((3, 1, "ITEM_B"), [9])]

/-! ## Helper lemmas on the string primitives -/

theorem splitChar_of_not_mem (sep : Char) (l : List Char) (h : sep ∉ l) :
    splitChar sep l = [l] := by
  induction l with
  | nil => rfl
  | cons c cs ih =>
    simp only [List.mem_cons, not_or] at h
    obtain ⟨h1, h2⟩ := h
    have h1' : ¬ c = sep := fun hh => h1 hh.symm
    simp only [splitChar, if_neg h1', ih h2]

/-- The Normalizer returns the empty sequence on any label without a comma that
is not one of the two hard-coded exceptions. -/
theorem extract_eq_nil_of_no_comma (area : String) (h : ',' ∉ area.data)
    (hUA : area ≠ "Urban Alaska") (hUH : area ≠ "Urban Hawaii") :
    extract_states_from_area_name area = [] := by
  simp only [extract_states_from_area_name, if_neg hUA, if_neg hUH, pySplitOn,
    splitChar_of_not_mem ',' area.data h, List.map]

/-- A nonempty Normalizer result forces the label to contain a comma or be one
of the two hard-coded exceptions (the condition `_get_or_create_region` tests). -/
theorem comma_or_exception_of_extract_ne_nil (area : String)
    (h : extract_states_from_area_name area ≠ []) :
    ',' ∈ area.data ∨ area = "Urban Alaska" ∨ area = "Urban Hawaii" := by
  by_cases hUA : area = "Urban Alaska"
  · exact Or.inr (Or.inl hUA)
  by_cases hUH : area = "Urban Hawaii"
  · exact Or.inr (Or.inr hUH)
  by_cases hc : ',' ∈ area.data
  · exact Or.inl hc
  · exact absurd (extract_eq_nil_of_no_comma area hc hUA hUH) h

/-! ## Claim theorems: C1 and C8 -/

/-- **C1.** For every raw area label that contains a comma and whose text after
the comma splits on `"-"` into one or more two-letter state codes, the Name
Normalizer (`_extract_states_from_area_name` followed by
`_normalize_state_name` on each code) returns exactly that many state names, in
the order the codes appear, where each code present in the fixed 51-entry
lookup table (50 states plus the District of Columbia) is replaced by its full
state name and any unrecognized code is returned unchanged. -/
theorem name_normalizer_expands_codes_in_order (area p0 p1 : String)
    (rest codes : List String)
    (hcomma : ',' ∈ area.data)
    (hsplit : pySplitOn ',' area = p0 :: p1 :: rest)
    (hcodes : codes = (pySplitOn '-' (pyStrip p1)).map pyStrip)
    (hlen : ∀ c ∈ codes, c.length = 2) (hne : codes ≠ []) :
    ((extract_states_from_area_name area).map normalize_state_name).length = codes.length ∧
    (extract_states_from_area_name area).map normalize_state_name
      = codes.map (fun c =>
          match alookup c state_table with
          | some full => full
          | none => c) ∧
    state_table.length = 51 ∧
    alookup "DC" state_table = some "District of Columbia" := by
  have hUA : area ≠ "Urban Alaska" := by
    rintro rfl; exact absurd hcomma (by decide)
  have hUH : area ≠ "Urban Hawaii" := by
    rintro rfl; exact absurd hcomma (by decide)
  have hext : extract_states_from_area_name area = codes := by
    rw [extract_states_from_area_name, if_neg hUA, if_neg hUH, hsplit, hcodes]
  refine ⟨?_, ?_, by decide, by decide⟩
  · rw [hext, List.length_map]
  · rw [hext]
    rfl

/-- Witness for C1 at the label `"Chicago-Naperville, IL-IN-WI"`. -/
theorem name_normalizer_expands_codes_in_order_witness :
    ((extract_states_from_area_name "Chicago-Naperville, IL-IN-WI").map
        normalize_state_name).length = (["IL", "IN", "WI"] : List String).length ∧
    (extract_states_from_area_name "Chicago-Naperville, IL-IN-WI").map normalize_state_name
      = (["IL", "IN", "WI"] : List String).map (fun c =>
          match alookup c state_table with
          | some full => full
          | none => c) ∧
    state_table.length = 51 ∧
    alookup "DC" state_table = some "District of Columbia" :=
  name_normalizer_expands_codes_in_order "Chicago-Naperville, IL-IN-WI"
    "Chicago-Naperville" " IL-IN-WI" [] ["IL", "IN", "WI"]
    (by decide) (by decide) (by decide) (by decide) (by decide)

/-- **C8.** For every raw area label that contains no comma and is not one of
the two hard-coded exceptions, the Name Normalizer returns an empty sequence;
the two hard-coded labels `"Urban Alaska"` and `"Urban Hawaii"` map directly to
the one-element sequences `["Alaska"]` and `["Hawaii"]`. -/
theorem name_normalizer_no_comma_empty :
    (∀ area : String, ',' ∉ area.data → area ≠ "Urban Alaska" → area ≠ "Urban Hawaii" →
        extract_states_from_area_name area = []) ∧
    extract_states_from_area_name "Urban Alaska" = ["Alaska"] ∧
    extract_states_from_area_name "Urban Hawaii" = ["Hawaii"] :=
  ⟨extract_eq_nil_of_no_comma, by decide, by decide⟩

/-- Witness for C8 at the comma-free label `"U.S. City Average"`. -/
theorem name_normalizer_no_comma_empty_witness :
    extract_states_from_area_name "U.S. City Average" = [] :=
  name_normalizer_no_comma_empty.1 "U.S. City Average" (by decide) (by decide) (by decide)

/-! ## Helper lemmas on `alookup`, the upserts, and the Region Resolver -/

theorem alookup_append_of_eq_some {κ α : Type} [DecidableEq κ] {k : κ} {v : α}
    {l : List (κ × α)} (l' : List (κ × α)) (h : alookup k l = some v) :
    alookup k (l ++ l') = some v := by
  induction l with
  | nil => simp [alookup] at h
  | cons p rest ih =>
    rw [alookup] at h
    rw [List.cons_append, alookup]
    by_cases hk : p.1 = k
    · rw [if_pos hk] at h ⊢
      exact h
    · rw [if_neg hk] at h ⊢
      exact ih h

theorem alookup_append_of_eq_none {κ α : Type} [DecidableEq κ] {k : κ}
    {l : List (κ × α)} (l' : List (κ × α)) (h : alookup k l = none) :
    alookup k (l ++ l') = alookup k l' := by
  induction l with
  | nil => rfl
  | cons p rest ih =>
    rw [alookup] at h
    rw [List.cons_append, alookup]
    by_cases hk : p.1 = k
    · rw [if_pos hk] at h
      exact absurd h (by simp)
    · rw [if_neg hk] at h ⊢
      exact ih h

theorem alookup_mem {κ α : Type} [DecidableEq κ] {k : κ} {v : α}
    {l : List (κ × α)} (h : alookup k l = some v) : (k, v) ∈ l := by
  induction l with
  | nil => simp [alookup] at h
  | cons p rest ih =>
    rw [alookup] at h
    by_cases hk : p.1 = k
    · rw [if_pos hk] at h
      have hv : v = p.2 := (Option.some.inj h).symm
      have : (k, v) = p := by rw [← hk, hv]
      rw [this]
      exact List.mem_cons_self p rest
    · rw [if_neg hk] at h
      exact List.mem_cons_of_mem p (ih h)

theorem insertRegion_found {db : DB} {name : String} {r : RegionRow} (ty : String)
    (h : db.findRegion name = some r) :
    db.insertRegion name ty = (r.region_id, db) := by
  unfold DB.insertRegion
  rw [h]

theorem insertRegion_new {db : DB} {name : String} (ty : String)
    (h : db.findRegion name = none) :
    db.insertRegion name ty =
      (db.next_region_id,
       { db with
          regions := db.regions ++ [⟨name, ty, db.next_region_id⟩],
          next_region_id := db.next_region_id + 1 }) := by
  unfold DB.insertRegion
  rw [h]

theorem insertPeriod_found {db : DB} {year : Nat} {month : Option Nat} {r : PeriodRow}
    (ty : String) (h : db.findPeriod year month = some r) :
    db.insertPeriod year month ty = (r.period_id, db) := by
  unfold DB.insertPeriod
  rw [h]

theorem insertPeriod_new {db : DB} {year : Nat} {month : Option Nat} (ty : String)
    (h : db.findPeriod year month = none) :
    db.insertPeriod year month ty =
      (db.next_period_id,
       { db with
          time_periods := db.time_periods ++ [⟨year, month, ty, db.next_period_id⟩],
          next_period_id := db.next_period_id + 1 }) := by
  unfold DB.insertPeriod
  rw [h]

/-- The `regions` table only grows under the upsert, new rows keep the given
type, and ids stay below the auto-increment counter. -/
theorem insertRegion_regions (db : DB) (name ty : String) :
    ∃ t, (db.insertRegion name ty).2.regions = db.regions ++ t ∧
      ∀ r ∈ t, r.region_type = ty := by
  cases hf : db.findRegion name with
  | some r => rw [insertRegion_found ty hf]; exact ⟨[], by simp⟩
  | none =>
    rw [insertRegion_new ty hf]
    exact ⟨[⟨name, ty, db.next_region_id⟩], rfl, by intro r hr; rw [List.mem_singleton.mp hr]⟩

/-- The region cache only grows across `resolveStates`. -/
theorem resolveStates_region_map_mono (codes : List String) :
    ∀ s : ETLState, ∃ t, (resolveStates s codes).2.region_map = s.region_map ++ t := by
  induction codes with
  | nil => intro s; exact ⟨[], by simp [resolveStates]⟩
  | cons code rest ih =>
    intro s
    cases hl : alookup (normalize_state_name code) s.region_map with
    | some rid =>
      rw [resolveStates, hl]
      exact ih s
    | none =>
      rw [resolveStates, hl]
      simp only []
      obtain ⟨t, ht⟩ := ih
        { s with
            db := (s.db.insertRegion (normalize_state_name code) "state").2,
            region_map := s.region_map ++
              [(normalize_state_name code,
                (s.db.insertRegion (normalize_state_name code) "state").1)] }
      rw [ht]
      exact ⟨_, by rw [List.append_assoc]⟩

/-- After `resolveStates`, the final cache resolves each processed code to the
id that was returned for it, positionally. -/
theorem resolveStates_lookup :
    ∀ (codes : List String) (s : ETLState) (ids : List Nat) (s' : ETLState),
      resolveStates s codes = (ids, s') →
      List.Forall₂ (fun c i => alookup (normalize_state_name c) s'.region_map = some i)
        codes ids := by
  intro codes
  induction codes with
  | nil =>
    intro s ids s' h
    injection h with h1 h2
    subst h1
    subst h2
    exact List.Forall₂.nil
  | cons code rest ih =>
    intro s ids s' h
    cases hl : alookup (normalize_state_name code) s.region_map with
    | some rid =>
      rw [resolveStates, hl] at h
      injection h with h1 h2
      subst h1
      subst h2
      refine List.Forall₂.cons ?_ (ih s _ _ rfl)
      obtain ⟨t, ht⟩ := resolveStates_region_map_mono rest s
      rw [ht]
      exact alookup_append_of_eq_some t hl
    | none =>
      rw [resolveStates, hl] at h
      injection h with h1 h2
      subst h1
      subst h2
      refine List.Forall₂.cons ?_ (ih _ _ _ rfl)
      obtain ⟨t, ht⟩ := resolveStates_region_map_mono rest
        { s with
            db := (s.db.insertRegion (normalize_state_name code) "state").2,
            region_map := s.region_map ++
              [(normalize_state_name code,
                (s.db.insertRegion (normalize_state_name code) "state").1)] }
      rw [ht]
      have h2 :
          ({ s with
              db := (s.db.insertRegion (normalize_state_name code) "state").2,
              region_map := s.region_map ++
                [(normalize_state_name code,
                  (s.db.insertRegion (normalize_state_name code) "state").1)] :
            ETLState}).region_map
            = s.region_map ++
              [(normalize_state_name code,
                (s.db.insertRegion (normalize_state_name code) "state").1)] := rfl
      rw [h2, List.append_assoc, alookup_append_of_eq_none _ hl, List.cons_append, alookup,
        if_pos rfl]

/-- If every code already resolves in the cache to the corresponding id, then
`resolveStates` is a pure read: it returns those ids and leaves the state
untouched. -/
theorem resolveStates_of_all_hits {codes : List String} {ids : List Nat} {s : ETLState}
    (h : List.Forall₂ (fun c i => alookup (normalize_state_name c) s.region_map = some i)
      codes ids) :
    resolveStates s codes = (ids, s) := by
  induction h with
  | nil => rfl
  | cons hhead _ ih =>
    rw [resolveStates, hhead, ih]

theorem getOrCreatePlainRegion_idem {s : ETLState} {name ty : String}
    {ids : List Nat} {s' : ETLState}
    (h : getOrCreatePlainRegion s name ty = (ids, s')) (ty2 : String) :
    getOrCreatePlainRegion s' name ty2 = (ids, s') := by
  rw [getOrCreatePlainRegion] at h
  cases hl : alookup name s.region_map with
  | some rid =>
    rw [hl] at h
    injection h with h1 h2
    subst h1
    subst h2
    rw [getOrCreatePlainRegion, hl]
  | none =>
    rw [hl] at h
    injection h with h1 h2
    subst h1
    subst h2
    rw [getOrCreatePlainRegion]
    have h3 :
        ({ s with
            db := (s.db.insertRegion name ty).2,
            region_map := s.region_map ++ [(name, (s.db.insertRegion name ty).1)] :
          ETLState}).region_map
          = s.region_map ++ [(name, (s.db.insertRegion name ty).1)] := rfl
    rw [h3, alookup_append_of_eq_none _ hl, alookup, if_pos rfl]

/-- Second resolution of the same raw label (under any declared type) is a pure
cache read: same ids, unchanged state. -/
theorem get_or_create_region_idem {s : ETLState} {name ty : String}
    {ids : List Nat} {s' : ETLState}
    (h : get_or_create_region s name ty = (ids, s')) (ty2 : String) :
    get_or_create_region s' name ty2 = (ids, s') := by
  rw [get_or_create_region] at h ⊢
  by_cases hcond : ',' ∈ name.data ∨ name = "Urban Alaska" ∨ name = "Urban Hawaii"
  · rw [if_pos hcond] at h ⊢
    by_cases hne : extract_states_from_area_name name ≠ []
    · rw [if_pos hne] at h ⊢
      exact resolveStates_of_all_hits (resolveStates_lookup _ _ _ _ h)
    · rw [if_neg hne] at h ⊢
      exact getOrCreatePlainRegion_idem h ty2
  · rw [if_neg hcond] at h ⊢
    exact getOrCreatePlainRegion_idem h ty2

/-- In the multi-state branch, every `regions` row persisted by `resolveStates`
carries the literal type `'state'`. -/
theorem resolveStates_db_regions :
    ∀ (codes : List String) (s : ETLState) (ids : List Nat) (s' : ETLState),
      resolveStates s codes = (ids, s') →
      ∃ t, s'.db.regions = s.db.regions ++ t ∧
        ∀ r ∈ t, r.region_type = "state" := by
  intro codes
  induction codes with
  | nil =>
    intro s ids s' h
    injection h with h1 h2
    subst h2
    exact ⟨[], by simp⟩
  | cons code rest ih =>
    intro s ids s' h
    cases hl : alookup (normalize_state_name code) s.region_map with
    | some rid =>
      rw [resolveStates, hl] at h
      injection h with h1 h2
      subst h2
      exact ih s _ _ rfl
    | none =>
      rw [resolveStates, hl] at h
      injection h with h1 h2
      subst h2
      obtain ⟨t, ht, hty⟩ := ih _ _ _ rfl
      obtain ⟨t0, ht0, hty0⟩ :=
        insertRegion_regions s.db (normalize_state_name code) "state"
      refine ⟨t0 ++ t, ?_, ?_⟩
      · rw [ht]
        have h3 :
            ({ s with
                db := (s.db.insertRegion (normalize_state_name code) "state").2,
                region_map := s.region_map ++
                  [(normalize_state_name code,
                    (s.db.insertRegion (normalize_state_name code) "state").1)] :
              ETLState}).db
              = (s.db.insertRegion (normalize_state_name code) "state").2 := rfl
        rw [h3, ht0, List.append_assoc]
      · intro r hr
        rcases List.mem_append.mp hr with hr | hr
        · exact hty0 r hr
        · exact hty r hr

/-! ## Claim theorems: C6 and C10 -/

/-- **C6.** For every region name and declared type, resolving that same name
twice within one run returns the same identifier(s) both times: on the second
call every lookup is served from the in-memory cache and the cached
identifier(s) are returned without persisting a new record — the second call
returns exactly the ids of the first and leaves the state (database included)
unchanged. -/
theorem region_resolver_idempotent (s : ETLState) (name ty : String)
    (ids1 : List Nat) (s1 : ETLState)
    (h : get_or_create_region s name ty = (ids1, s1)) :
    get_or_create_region s1 name ty = (ids1, s1) :=
  get_or_create_region_idem h ty

/-- Witness for C6: resolving `"St. Louis, MO-IL"` twice from a fresh run. -/
theorem region_resolver_idempotent_witness :
    get_or_create_region (get_or_create_region etlInit "St. Louis, MO-IL" "region").2
        "St. Louis, MO-IL" "region"
      = ((get_or_create_region etlInit "St. Louis, MO-IL" "region").1,
         (get_or_create_region etlInit "St. Louis, MO-IL" "region").2) :=
  region_resolver_idempotent etlInit "St. Louis, MO-IL" "region" _ _ rfl

/-- **C10.** The identifier(s) returned by the Region Resolver are independent
of the declared region type whenever the name is already cached (the cache is
keyed by name alone, and the multi-state branch never reads the declared
type); moreover, regions created by expanding a multi-state area label are
always persisted with type `'state'`, ignoring the caller's declared type
argument. -/
theorem region_resolver_type_independent :
    (∀ (s : ETLState) (name ty1 ty2 : String),
        (alookup name s.region_map).isSome →
        get_or_create_region s name ty1 = get_or_create_region s name ty2) ∧
    (∀ (s : ETLState) (name ty : String) (ids : List Nat) (s' : ETLState),
        (',' ∈ name.data ∨ name = "Urban Alaska" ∨ name = "Urban Hawaii") →
        extract_states_from_area_name name ≠ [] →
        get_or_create_region s name ty = (ids, s') →
        ∃ t, s'.db.regions = s.db.regions ++ t ∧
          ∀ r ∈ t, r.region_type = "state") := by
  constructor
  · intro s name ty1 ty2 hsome
    rw [get_or_create_region, get_or_create_region]
    by_cases hcond : ',' ∈ name.data ∨ name = "Urban Alaska" ∨ name = "Urban Hawaii"
    · rw [if_pos hcond, if_pos hcond]
      by_cases hne : extract_states_from_area_name name ≠ []
      · rw [if_pos hne, if_pos hne]
      · rw [if_neg hne, if_neg hne]
        cases hl : alookup name s.region_map with
        | some rid => rw [getOrCreatePlainRegion, getOrCreatePlainRegion, hl]
        | none => rw [hl] at hsome; exact absurd hsome (by simp)
    · rw [if_neg hcond, if_neg hcond]
      cases hl : alookup name s.region_map with
      | some rid => rw [getOrCreatePlainRegion, getOrCreatePlainRegion, hl]
      | none => rw [hl] at hsome; exact absurd hsome (by simp)
  · intro s name ty ids s' hcond hne h
    rw [get_or_create_region, if_pos hcond, if_pos hne] at h
    exact resolveStates_db_regions _ _ _ _ h

/-- Witness for C10: a cached plain region name resolved under two different
declared types, and the multi-state expansion of
`"Chicago-Naperville, IL-IN-WI"` persisting only `'state'`-typed rows. -/
theorem region_resolver_type_independent_witness :
    get_or_create_region (get_or_create_region etlInit "New England" "region").2
        "New England" "region"
      = get_or_create_region (get_or_create_region etlInit "New England" "region").2
        "New England" "division" ∧
    (∃ t, (get_or_create_region etlInit "Chicago-Naperville, IL-IN-WI" "region").2.db.regions
        = etlInit.db.regions ++ t ∧ ∀ r ∈ t, r.region_type = "state") :=
  ⟨region_resolver_type_independent.1 _ "New England" "region" "division" (by decide),
   region_resolver_type_independent.2 etlInit "Chicago-Naperville, IL-IN-WI" "region" _ _
     (by decide) (by decide) rfl⟩
/-! ## Invariant lemmas -/

theorem findRegion_eq_none {db : DB} {name : String} (h : db.findRegion name = none) :
    ∀ r ∈ db.regions, r.region_name ≠ name := by
  intro r hr
  have := List.find?_eq_none.mp h r hr
  simpa using this

theorem findRegion_some {db : DB} {name : String} {r : RegionRow}
    (h : db.findRegion name = some r) : r ∈ db.regions ∧ r.region_name = name := by
  refine ⟨List.mem_of_find?_eq_some h, ?_⟩
  have := List.find?_some h
  simpa using this

theorem findPeriod_eq_none {db : DB} {y : Nat} {m : Option Nat}
    (h : db.findPeriod y m = none) :
    ∀ r ∈ db.time_periods, ¬(r.year = y ∧ r.month = m) := by
  intro r hr
  have := List.find?_eq_none.mp h r hr
  simpa using this

theorem findPeriod_some {db : DB} {y : Nat} {m : Option Nat} {r : PeriodRow}
    (h : db.findPeriod y m = some r) :
    r ∈ db.time_periods ∧ r.year = y ∧ r.month = m := by
  refine ⟨List.mem_of_find?_eq_some h, ?_⟩
  have := List.find?_some h
  simpa using this

/-- Distinct cached region names never share an id. -/
theorem region_cache_inj {s : ETLState} (hinv : Inv s) {n1 n2 : String} {i : Nat}
    (h1 : alookup n1 s.region_map = some i) (h2 : alookup n2 s.region_map = some i) :
    n1 = n2 := by
  obtain ⟨r1, hr1, hn1, hi1⟩ := hinv.rmap_db _ (alookup_mem h1)
  obtain ⟨r2, hr2, hn2, hi2⟩ := hinv.rmap_db _ (alookup_mem h2)
  have hn1' : r1.region_name = n1 := hn1
  have hn2' : r2.region_name = n2 := hn2
  have hi1' : r1.region_id = i := hi1
  have hi2' : r2.region_id = i := hi2
  have hr : r1 = r2 :=
    List.inj_on_of_nodup_map hinv.rdb_ids hr1 hr2 (by rw [hi1', hi2'])
  rw [← hn1', ← hn2', hr]

/-- Distinct cached period keys never share an id. -/
theorem period_cache_inj {s : ETLState} (hinv : Inv s) {k1 k2 : Nat × Option Nat}
    {i : Nat} (h1 : alookup k1 s.period_map = some i)
    (h2 : alookup k2 s.period_map = some i) : k1 = k2 := by
  obtain ⟨r1, hr1, hy1, hm1, hi1⟩ := hinv.pmap_db _ (alookup_mem h1)
  obtain ⟨r2, hr2, hy2, hm2, hi2⟩ := hinv.pmap_db _ (alookup_mem h2)
  have hy1' : r1.year = k1.1 := hy1
  have hm1' : r1.month = k1.2 := hm1
  have hy2' : r2.year = k2.1 := hy2
  have hm2' : r2.month = k2.2 := hm2
  have hi1' : r1.period_id = i := hi1
  have hi2' : r2.period_id = i := hi2
  have hr : r1 = r2 :=
    List.inj_on_of_nodup_map hinv.pdb_ids hr1 hr2 (by rw [hi1', hi2'])
  have hfst : k1.1 = k2.1 := by rw [← hy1', ← hy2', hr]
  have hsnd : k1.2 = k2.2 := by rw [← hm1', ← hm2', hr]
  exact Prod.ext hfst hsnd

/-- One cache-plus-table insertion step for a region keeps the invariant. -/
theorem inv_region_insert_step {s : ETLState} (hinv : Inv s) (name ty : String) :
    Inv { s with
            db := (s.db.insertRegion name ty).2,
            region_map := s.region_map ++ [(name, (s.db.insertRegion name ty).1)] } := by
  cases hf : s.db.findRegion name with
  | some r =>
    rw [insertRegion_found _ hf]
    obtain ⟨hrmem, hrname⟩ := findRegion_some hf
    refine ⟨hinv.rdb_names, hinv.rdb_ids, hinv.rdb_lt, ?_, hinv.pdb_keys, hinv.pdb_ids,
      hinv.pdb_lt, hinv.pmap_db⟩
    intro p hp
    rcases List.mem_append.mp hp with hp | hp
    · exact hinv.rmap_db p hp
    · rw [List.mem_singleton.mp hp]
      exact ⟨r, hrmem, hrname, rfl⟩
  | none =>
    rw [insertRegion_new _ hf]
    have hnames := findRegion_eq_none hf
    refine ⟨?_, ?_, ?_, ?_, hinv.pdb_keys, hinv.pdb_ids, hinv.pdb_lt, hinv.pmap_db⟩
    · rw [List.map_append]
      refine List.Nodup.append hinv.rdb_names (List.nodup_singleton _) ?_
      intro a ha hb
      rw [List.mem_singleton.mp hb] at ha
      obtain ⟨r, hr, hrn⟩ := List.mem_map.mp ha
      exact hnames r hr hrn
    · rw [List.map_append]
      refine List.Nodup.append hinv.rdb_ids (List.nodup_singleton _) ?_
      intro a ha hb
      rw [List.mem_singleton.mp hb] at ha
      obtain ⟨r, hr, hrn⟩ := List.mem_map.mp ha
      exact absurd hrn (Nat.ne_of_lt (hinv.rdb_lt r hr))
    · intro r hr
      rcases List.mem_append.mp hr with hr | hr
      · exact Nat.lt_succ_of_lt (hinv.rdb_lt r hr)
      · rw [List.mem_singleton.mp hr]
        exact Nat.lt_succ_self _
    · intro p hp
      rcases List.mem_append.mp hp with hp | hp
      · obtain ⟨r, hr, h1, h2⟩ := hinv.rmap_db p hp
        exact ⟨r, List.mem_append_left _ hr, h1, h2⟩
      · rw [List.mem_singleton.mp hp]
        exact ⟨⟨name, ty, s.db.next_region_id⟩,
          List.mem_append_right _ (List.mem_singleton_self _), rfl, rfl⟩

theorem inv_getOrCreatePlainRegion {s : ETLState} (hinv : Inv s) (name ty : String) :
    Inv (getOrCreatePlainRegion s name ty).2 := by
  cases hl : alookup name s.region_map with
  | some rid => rw [getOrCreatePlainRegion, hl]; exact hinv
  | none => rw [getOrCreatePlainRegion, hl]; exact inv_region_insert_step hinv name ty

theorem inv_resolveStates :
    ∀ (codes : List String) (s : ETLState), Inv s → Inv (resolveStates s codes).2 := by
  intro codes
  induction codes with
  | nil => intro s hinv; exact hinv
  | cons code rest ih =>
    intro s hinv
    cases hl : alookup (normalize_state_name code) s.region_map with
    | some rid =>
      rw [resolveStates, hl]
      exact ih s hinv
    | none =>
      rw [resolveStates, hl]
      exact ih _ (inv_region_insert_step hinv (normalize_state_name code) "state")

theorem inv_get_or_create_region {s : ETLState} (hinv : Inv s) (name ty : String) :
    Inv (get_or_create_region s name ty).2 := by
  rw [get_or_create_region]
  by_cases hcond : ',' ∈ name.data ∨ name = "Urban Alaska" ∨ name = "Urban Hawaii"
  · rw [if_pos hcond]
    by_cases hne : extract_states_from_area_name name ≠ []
    · rw [if_pos hne]
      exact inv_resolveStates _ s hinv
    · rw [if_neg hne]
      exact inv_getOrCreatePlainRegion hinv name ty
  · rw [if_neg hcond]
    exact inv_getOrCreatePlainRegion hinv name ty

/-- One cache-plus-table insertion step for a period keeps the invariant. -/
theorem inv_period_insert_step {s : ETLState} (hinv : Inv s) (y : Nat) (m : Option Nat)
    (ty : String) :
    Inv { s with
            db := (s.db.insertPeriod y m ty).2,
            period_map := s.period_map ++ [((y, m), (s.db.insertPeriod y m ty).1)] } := by
  cases hf : s.db.findPeriod y m with
  | some r =>
    rw [insertPeriod_found _ hf]
    obtain ⟨hrmem, hry, hrm⟩ := findPeriod_some hf
    refine ⟨hinv.rdb_names, hinv.rdb_ids, hinv.rdb_lt, hinv.rmap_db, hinv.pdb_keys,
      hinv.pdb_ids, hinv.pdb_lt, ?_⟩
    intro p hp
    rcases List.mem_append.mp hp with hp | hp
    · exact hinv.pmap_db p hp
    · rw [List.mem_singleton.mp hp]
      exact ⟨r, hrmem, hry, hrm, rfl⟩
  | none =>
    rw [insertPeriod_new _ hf]
    have hkeys := findPeriod_eq_none hf
    refine ⟨hinv.rdb_names, hinv.rdb_ids, hinv.rdb_lt, hinv.rmap_db, ?_, ?_, ?_, ?_⟩
    · rw [List.map_append]
      refine List.Nodup.append hinv.pdb_keys (List.nodup_singleton _) ?_
      intro a ha hb
      rw [List.mem_singleton.mp hb] at ha
      obtain ⟨r, hr, hrn⟩ := List.mem_map.mp ha
      exact hkeys r hr ⟨congrArg Prod.fst hrn, congrArg Prod.snd hrn⟩
    · rw [List.map_append]
      refine List.Nodup.append hinv.pdb_ids (List.nodup_singleton _) ?_
      intro a ha hb
      rw [List.mem_singleton.mp hb] at ha
      obtain ⟨r, hr, hrn⟩ := List.mem_map.mp ha
      exact absurd hrn (Nat.ne_of_lt (hinv.pdb_lt r hr))
    · intro r hr
      rcases List.mem_append.mp hr with hr | hr
      · exact Nat.lt_succ_of_lt (hinv.pdb_lt r hr)
      · rw [List.mem_singleton.mp hr]
        exact Nat.lt_succ_self _
    · intro p hp
      rcases List.mem_append.mp hp with hp | hp
      · obtain ⟨r, hr, h1, h2, h3⟩ := hinv.pmap_db p hp
        exact ⟨r, List.mem_append_left _ hr, h1, h2, h3⟩
      · rw [List.mem_singleton.mp hp]
        exact ⟨⟨y, m, ty, s.db.next_period_id⟩,
          List.mem_append_right _ (List.mem_singleton_self _), rfl, rfl, rfl⟩

theorem inv_get_or_create_period {s : ETLState} (hinv : Inv s) (y : Nat)
    (m : Option Nat) : Inv (get_or_create_period s y m).2 := by
  cases hl : alookup (y, m) s.period_map with
  | some pid => rw [get_or_create_period, hl]; exact hinv
  | none =>
    rw [get_or_create_period, hl]
    exact inv_period_insert_step hinv y m _

theorem inv_init : Inv etlInit := by
  refine ⟨?_, ?_, ?_, ?_, ?_, ?_, ?_, ?_⟩ <;> simp [etlInit]

/-! ## Period Resolver lemmas -/

theorem alookup_append_self {κ α : Type} [DecidableEq κ] {k : κ} {l : List (κ × α)}
    (v : α) (h : alookup k l = none) : alookup k (l ++ [(k, v)]) = some v := by
  rw [alookup_append_of_eq_none _ h, alookup, if_pos rfl]

/-- After `_get_or_create_period`, the cache resolves the key to the returned
id. -/
theorem get_or_create_period_postcond {s : ETLState} {y : Nat} {m : Option Nat}
    {pid : Nat} {s1 : ETLState} (h : get_or_create_period s y m = (pid, s1)) :
    alookup (y, m) s1.period_map = some pid := by
  cases hl : alookup (y, m) s.period_map with
  | some pid0 =>
    rw [get_or_create_period, hl] at h
    injection h with h1 h2
    subst h1
    subst h2
    exact hl
  | none =>
    rw [get_or_create_period, hl] at h
    injection h with h1 h2
    subst h1
    subst h2
    exact alookup_append_self _ hl

/-- The period cache only grows across `_get_or_create_period`. -/
theorem get_or_create_period_map_mono {s : ETLState} {y : Nat} {m : Option Nat}
    {pid : Nat} {s1 : ETLState} (h : get_or_create_period s y m = (pid, s1)) :
    ∃ t, s1.period_map = s.period_map ++ t := by
  cases hl : alookup (y, m) s.period_map with
  | some pid0 =>
    rw [get_or_create_period, hl] at h
    injection h with h1 h2
    subst h2
    exact ⟨[], by simp⟩
  | none =>
    rw [get_or_create_period, hl] at h
    injection h with h1 h2
    subst h2
    exact ⟨_, rfl⟩

/-! ## Claim theorem: C7 -/

/-- **C7.** Within one run, `(year, month)` uniquely determines the period
identifier: resolving the same pair again returns the same id (and leaves the
state untouched); two calls with different pairs that both miss the cache
(create) yield distinct ids; a yearly period (`month` absent) is distinct from
every monthly period of the same year; a freshly created period with a month
in `1..12` is recorded with `period_type = 'monthly'`, and a freshly created
yearly period with `period_type = 'yearly'`. -/
theorem period_resolver_key_determines_id (s : ETLState) (hinv : Inv s) :
    (∀ (y : Nat) (m : Option Nat) (pid : Nat) (s1 : ETLState),
        get_or_create_period s y m = (pid, s1) →
        get_or_create_period s1 y m = (pid, s1)) ∧
    (∀ (y1 : Nat) (m1 : Option Nat) (y2 : Nat) (m2 : Option Nat)
        (i1 : Nat) (s1 : ETLState) (i2 : Nat) (s2 : ETLState),
        (y1, m1) ≠ (y2, m2) →
        alookup (y1, m1) s.period_map = none →
        get_or_create_period s y1 m1 = (i1, s1) →
        alookup (y2, m2) s1.period_map = none →
        get_or_create_period s1 y2 m2 = (i2, s2) →
        i1 ≠ i2) ∧
    (∀ (y m iy : Nat) (s1 : ETLState) (im : Nat) (s2 : ETLState),
        get_or_create_period s y none = (iy, s1) →
        get_or_create_period s1 y (some m) = (im, s2) →
        iy ≠ im) ∧
    (∀ (y m : Nat), 1 ≤ m → m ≤ 12 →
        alookup (y, some m) s.period_map = none →
        s.db.findPeriod y (some m) = none →
        (get_or_create_period s y (some m)).2.db.time_periods
          = s.db.time_periods ++ [⟨y, some m, "monthly", s.db.next_period_id⟩]) ∧
    (∀ y : Nat,
        alookup (y, none) s.period_map = none →
        s.db.findPeriod y none = none →
        (get_or_create_period s y none).2.db.time_periods
          = s.db.time_periods ++ [⟨y, none, "yearly", s.db.next_period_id⟩]) := by
  refine ⟨?_, ?_, ?_, ?_, ?_⟩
  · intro y m pid s1 h
    rw [get_or_create_period, get_or_create_period_postcond h]
  · intro y1 m1 y2 m2 i1 s1 i2 s2 hkne hl1 h1 hl2 h2 heq
    have post1 := get_or_create_period_postcond h1
    obtain ⟨t, ht⟩ := get_or_create_period_map_mono h2
    have post1' : alookup (y1, m1) s2.period_map = some i1 := by
      rw [ht]
      exact alookup_append_of_eq_some t post1
    have post2 := get_or_create_period_postcond h2
    have hinv1 : Inv s1 := by
      have h0 := inv_get_or_create_period hinv y1 m1
      rw [h1] at h0
      exact h0
    have hinv2 : Inv s2 := by
      have h0 := inv_get_or_create_period hinv1 y2 m2
      rw [h2] at h0
      exact h0
    rw [heq] at post1'
    exact hkne (period_cache_inj hinv2 post1' post2)
  · intro y m iy s1 im s2 h1 h2 heq
    have post1 := get_or_create_period_postcond h1
    obtain ⟨t, ht⟩ := get_or_create_period_map_mono h2
    have post1' : alookup (y, (none : Option Nat)) s2.period_map = some iy := by
      rw [ht]
      exact alookup_append_of_eq_some t post1
    have post2 := get_or_create_period_postcond h2
    have hinv1 : Inv s1 := by
      have h0 := inv_get_or_create_period hinv y none
      rw [h1] at h0
      exact h0
    have hinv2 : Inv s2 := by
      have h0 := inv_get_or_create_period hinv1 y (some m)
      rw [h2] at h0
      exact h0
    rw [heq] at post1'
    have hk := period_cache_inj hinv2 post1' post2
    simpa using congrArg Prod.snd hk
  · intro y m h1le h12 hl hf
    have hcond : ((some m : Option Nat).getD 0 ≠ 0) := by
      simp only [Option.getD_some]
      omega
    rw [get_or_create_period, hl, if_pos hcond, insertPeriod_new _ hf]
  · intro y hl hf
    have hcond : ¬((none : Option Nat).getD 0 ≠ 0) := by simp
    rw [get_or_create_period, hl, if_neg hcond, insertPeriod_new _ hf]

/-- Witness for C7: fresh run, concrete years and months. -/
theorem period_resolver_key_determines_id_witness :
    get_or_create_period (get_or_create_period etlInit 2020 (some 3)).2 2020 (some 3)
      = ((get_or_create_period etlInit 2020 (some 3)).1,
         (get_or_create_period etlInit 2020 (some 3)).2) ∧
    (get_or_create_period etlInit 2020 (some 3)).1
      ≠ (get_or_create_period (get_or_create_period etlInit 2020 (some 3)).2 2020 none).1 ∧
    (get_or_create_period etlInit 2021 none).1
      ≠ (get_or_create_period (get_or_create_period etlInit 2021 none).2 2021 (some 4)).1 ∧
    (get_or_create_period etlInit 2022 (some 7)).2.db.time_periods
      = etlInit.db.time_periods ++ [⟨2022, some 7, "monthly", etlInit.db.next_period_id⟩] ∧
    (get_or_create_period etlInit 2023 none).2.db.time_periods
      = etlInit.db.time_periods ++ [⟨2023, none, "yearly", etlInit.db.next_period_id⟩] :=
  ⟨(period_resolver_key_determines_id etlInit inv_init).1 2020 (some 3) _ _ rfl,
   (period_resolver_key_determines_id etlInit inv_init).2.1 2020 (some 3) 2020 none
     _ _ _ _ (by decide) (by decide) rfl (by decide) rfl,
   (period_resolver_key_determines_id etlInit inv_init).2.2.1 2021 4 _ _ _ _ rfl rfl,
   (period_resolver_key_determines_id etlInit inv_init).2.2.2.1 2022 7
     (by decide) (by decide) (by decide) (by decide),
   (period_resolver_key_determines_id etlInit inv_init).2.2.2.2 2023
     (by decide) (by decide)⟩

/-! ## Loader orchestration lemmas and claim C9 -/

theorem runStages_none {E : Type} (f : EtlStage → Option E) :
    ∀ l : List EtlStage, (∀ st ∈ l, f st = none) → runStages f l = (l, none) := by
  intro l
  induction l with
  | nil => intro _; rfl
  | cons st rest ih =>
    intro h
    rw [runStages, h st (List.mem_cons_self st rest),
      ih (fun u hu => h u (List.mem_cons_of_mem st hu))]

theorem runStages_fail {E : Type} (f : EtlStage → Option E) :
    ∀ (l1 : List EtlStage) (st : EtlStage) (l2 : List EtlStage) (e : E),
      (∀ u ∈ l1, f u = none) → f st = some e →
      runStages f (l1 ++ st :: l2) = (l1 ++ [st], some e) := by
  intro l1
  induction l1 with
  | nil =>
    intro st l2 e _ hst
    rw [List.nil_append, runStages, hst, List.nil_append]
  | cons u l1 ih =>
    intro st l2 e h hst
    rw [List.cons_append, runStages, h u (List.mem_cons_self u l1),
      ih st l2 e (fun v hv => h v (List.mem_cons_of_mem u hv)) hst]
    rfl

/-- **C9.** `execute_etl` runs its stages strictly in the fixed order
connect → reference tables → fact tables (each committing as it finishes) with
no retries; on success every stage runs exactly once in order; if a stage
raises, the error is logged and propagated and no later stage runs; in every
outcome the connection close is executed as the final cleanup step. -/
theorem loader_stage_order_and_cleanup :
    (∀ (E : Type) (f : EtlStage → Option E),
        (execute_etl f).executed.getLast? = some EtlStage.close) ∧
    (∀ (E : Type) (f : EtlStage → Option E),
        (∀ st ∈ etlOrder, f st = none) →
        execute_etl f =
          { executed := etlOrder ++ [EtlStage.close], errorLog := [], result := none }) ∧
    (∀ (E : Type) (f : EtlStage → Option E) (l1 : List EtlStage) (st : EtlStage)
        (l2 : List EtlStage) (e : E),
        etlOrder = l1 ++ st :: l2 →
        (∀ u ∈ l1, f u = none) →
        f st = some e →
        execute_etl f =
          { executed := l1 ++ [st, EtlStage.close], errorLog := [e],
            result := some e }) := by
  refine ⟨?_, ?_, ?_⟩
  · intro E f
    exact List.getLast?_concat _
  · intro E f h
    simp only [execute_etl, runStages_none f etlOrder h]
  · intro E f l1 st l2 e horder h1 hst
    simp only [execute_etl, horder, runStages_fail f l1 st l2 e h1 hst]
    simp [List.append_assoc]

/-- Witness for C9: a run where every stage succeeds, and a run where the
food-prices stage raises `"boom"`. -/
theorem loader_stage_order_and_cleanup_witness :
    (execute_etl (fun _ : EtlStage => (none : Option String))).executed.getLast?
      = some EtlStage.close ∧
    execute_etl (fun _ : EtlStage => (none : Option String)) =
      { executed := etlOrder ++ [EtlStage.close], errorLog := [], result := none } ∧
    execute_etl
        (fun st : EtlStage =>
          if st = EtlStage.foodPrices then some "boom" else (none : Option String)) =
      { executed :=
          [EtlStage.connect, EtlStage.foodCategories, EtlStage.cpiCategories] ++
            [EtlStage.foodPrices, EtlStage.close],
        errorLog := ["boom"], result := some "boom" } :=
  ⟨loader_stage_order_and_cleanup.1 String (fun _ => none),
   loader_stage_order_and_cleanup.2.1 String (fun _ => none) (by decide),
   loader_stage_order_and_cleanup.2.2 String
     (fun st => if st = EtlStage.foodPrices then some "boom" else none)
     [EtlStage.connect, EtlStage.foodCategories, EtlStage.cpiCategories]
     EtlStage.foodPrices
     [EtlStage.cpiData, EtlStage.stateFoodSales, EtlStage.regionalIncome,
      EtlStage.stateIncome]
     "boom" (by decide) (by decide) (by decide)⟩

/-! ## Claim C5: malformed period strings -/

/-- **C5 (counterexample).** The claim says a malformed period string is a
hard stop: the run aborts rather than continuing to the next row.  In
`load_cpi_data` the `ValueError` from `_parse_period` is caught: loading a
two-row batch whose first row has the unrecognized period `"Q01"` succeeds,
logs one warning, skips only that row, and still processes the second row. -/
theorem cpi_malformed_period_does_not_abort :
    cpi_collect exCpiMeta exAreas etlInit [exBadRow, exGoodRow] =
      Except.ok
        ({ db :=
            { regions := [⟨"Missouri", "state", 0⟩],
              time_periods :=
                [⟨2020, some 1, "monthly", 0⟩, ⟨2020, none, "yearly", 1⟩],
              next_region_id := 1, next_period_id := 2 },
           region_map := [("Missouri", 0)],
           period_map := [((2020, some 1), 0), ((2020, none), 1)] },
         [((0, 0, "SA0"), [(7, "1982-84", 100)]),
          ((0, 1, "SA0"), [(7, "1982-84", 100)])],
         ["Skipping invalid period format: Unknown period format: Q01"]) := by
  rfl

/-- **C5 (amended).** For every period string in no recognized format,
`_parse_period` raises a `ValueError`; during the CPI load this error is
caught rather than being a hard stop: the row is skipped with a logged
warning (its region upsert having already happened) and the run continues
with the next row. -/
theorem parse_period_error_caught_and_row_skipped :
    (∀ p : String, pyStartsWithChar 'M' p = false → pyStartsWithChar 'S' p = false →
        parse_period p = Except.error ("Unknown period format: " ++ p)) ∧
    (∀ (meta : String → CpiMetaRow) (areas : String → String) (st : ETLState)
        (sv : List (SVKey × List CpiTuple)) (warns : List String) (row : SeriesRow)
        (v : ℚ) (bp0 bpv : String) (rest : List String) (bv : ℚ) (e : String),
        row.value = some v →
        pySplitOn '=' (meta row.series_id).base_period = bp0 :: bpv :: rest →
        pyFloat? (pyStrip bpv) = some bv →
        parse_period row.period = Except.error e →
        cpi_process_row meta areas st sv warns row =
          Except.ok
            ((get_or_create_region st (areas (meta row.series_id).area_code) "region").2,
             sv, warns ++ ["Skipping invalid period format: " ++ e])) := by
  constructor
  · intro p h1 h2
    rw [parse_period, if_neg (by simp [h1]), if_neg (by simp [h2])]
  · intro meta areas st sv warns row v bp0 bpv rest bv e hv hsplit hbv hpp
    simp only [cpi_process_row, hv, hsplit, hbv, hpp]

/-- Witness for the amended C5 at the period string `"Q01"`. -/
theorem parse_period_error_caught_and_row_skipped_witness :
    parse_period "Q01" = Except.error ("Unknown period format: " ++ "Q01") ∧
    cpi_process_row exCpiMeta exAreas etlInit [] [] exBadRow =
      Except.ok
        ((get_or_create_region etlInit
            (exAreas (exCpiMeta exBadRow.series_id).area_code) "region").2,
         [], [] ++ ["Skipping invalid period format: " ++ "Unknown period format: Q01"]) :=
  ⟨parse_period_error_caught_and_row_skipped.1 "Q01" (by decide) (by decide),
   parse_period_error_caught_and_row_skipped.2 exCpiMeta exAreas etlInit [] []
     exBadRow 5 "1982-84" "100" [] 100 "Unknown period format: Q01"
     (by decide) (by decide) (by decide) (by rfl)⟩

/-! ## Value Aggregator lemmas: base-period occurrence counting -/

theorem occCount_nil {α : Type} [DecidableEq α] (p : α) : occCount p [] = 0 := rfl

theorem occCount_append_singleton {α : Type} [DecidableEq α] (p a : α) (l : List α) :
    occCount p (l ++ [a]) = occCount p l + (if a = p then 1 else 0) := by
  by_cases h : a = p <;> simp [occCount, List.filter_append, h]

theorem firstSeen_append_singleton {α : Type} [DecidableEq α] (l : List α) (a : α) :
    firstSeen (l ++ [a])
      = if a ∈ firstSeen l then firstSeen l else firstSeen l ++ [a] := by
  simp only [firstSeen, List.foldl_append, List.foldl_cons, List.foldl_nil]

theorem bump_count_keys (k : String × ℚ) :
    ∀ acc : List ((String × ℚ) × Nat),
      (bump_count acc k).map Prod.fst
        = if k ∈ acc.map Prod.fst then acc.map Prod.fst else acc.map Prod.fst ++ [k] := by
  intro acc
  induction acc with
  | nil => simp [bump_count]
  | cons e rest ih =>
    simp only [List.map_cons]
    by_cases hek : e.1 = k
    · rw [bump_count, if_pos hek]
      have hk : k ∈ e.1 :: rest.map Prod.fst := by
        rw [← hek]
        exact List.mem_cons_self _ _
      rw [if_pos hk]
      rfl
    · rw [bump_count, if_neg hek]
      simp only [List.map_cons, ih]
      by_cases hkr : k ∈ rest.map Prod.fst
      · rw [if_pos hkr, if_pos (List.mem_cons_of_mem e.1 hkr)]
      · have hnk : k ∉ e.1 :: rest.map Prod.fst := by
          intro hc
          rcases List.mem_cons.mp hc with hc | hc
          · exact hek hc.symm
          · exact hkr hc
        rw [if_neg hkr, if_neg hnk, List.cons_append]

theorem bump_count_ne_nil (acc : List ((String × ℚ) × Nat)) (k : String × ℚ) :
    bump_count acc k ≠ [] := by
  cases acc with
  | nil => simp [bump_count]
  | cons e rest =>
    rw [bump_count]
    by_cases hek : e.1 = k
    · rw [if_pos hek]; simp
    · rw [if_neg hek]; simp

theorem bump_count_nodup {k : String × ℚ} {acc : List ((String × ℚ) × Nat)}
    (h1 : (acc.map Prod.fst).Nodup) : ((bump_count acc k).map Prod.fst).Nodup := by
  rw [bump_count_keys k acc]
  by_cases hk : k ∈ acc.map Prod.fst
  · rw [if_pos hk]; exact h1
  · rw [if_neg hk]
    refine List.Nodup.append h1 (List.nodup_singleton _) ?_
    intro a ha hb
    rw [List.mem_singleton.mp hb] at ha
    exact hk ha

theorem bump_count_counts {k : String × ℚ} {done : List (String × ℚ)} :
    ∀ acc : List ((String × ℚ) × Nat),
      (acc.map Prod.fst).Nodup →
      (∀ q ∈ acc, q.2 = occCount q.1 done) →
      (k ∉ acc.map Prod.fst → occCount k done = 0) →
      ∀ q ∈ bump_count acc k, q.2 = occCount q.1 (done ++ [k]) := by
  intro acc
  induction acc with
  | nil =>
    intro _ _ h4 q hq
    rw [bump_count] at hq
    rw [List.mem_singleton.mp hq]
    rw [occCount_append_singleton, h4 (by simp), if_pos rfl]
  | cons e rest ih =>
    intro h1 h3 h4 q hq
    by_cases hek : e.1 = k
    · rw [bump_count, if_pos hek] at hq
      rcases List.mem_cons.mp hq with hq | hq
      · rw [hq]
        rw [occCount_append_singleton]
        have he := h3 e (List.mem_cons_self e rest)
        have hif : (if k = e.1 then 1 else 0) = 1 := if_pos hek.symm
        rw [hif, ← he]
      · have hq3 := h3 q (List.mem_cons_of_mem e hq)
        rw [occCount_append_singleton]
        have hq1 : q.1 ∈ rest.map Prod.fst := List.mem_map_of_mem Prod.fst hq
        have hne : k ≠ q.1 := by
          rw [← hek]
          intro hc
          rw [List.map_cons] at h1
          exact (List.nodup_cons.mp h1).1 (hc ▸ hq1)
        rw [if_neg hne, hq3]
        omega
    · rw [bump_count, if_neg hek] at hq
      rcases List.mem_cons.mp hq with hq | hq
      · rw [hq, occCount_append_singleton,
          if_neg (fun hc => hek (Eq.symm hc)), h3 e (List.mem_cons_self e rest)]
        omega
      · refine ih ?_ ?_ ?_ q hq
        · rw [List.map_cons] at h1
          exact (List.nodup_cons.mp h1).2
        · intro p hp
          exact h3 p (List.mem_cons_of_mem e hp)
        · intro hkr
          refine h4 ?_
          intro hc
          rcases List.mem_cons.mp hc with hc | hc
          · exact hek hc.symm
          · exact hkr hc

theorem bump_count_uncovered {k : String × ℚ} {done : List (String × ℚ)}
    {acc : List ((String × ℚ) × Nat)}
    (h4 : ∀ p, p ∉ acc.map Prod.fst → occCount p done = 0) :
    ∀ p, p ∉ (bump_count acc k).map Prod.fst → occCount p (done ++ [k]) = 0 := by
  intro p hp
  rw [bump_count_keys k acc] at hp
  have hpacc : p ∉ acc.map Prod.fst ∧ p ≠ k := by
    by_cases hk : k ∈ acc.map Prod.fst
    · rw [if_pos hk] at hp
      exact ⟨hp, fun hc => hp (hc ▸ hk)⟩
    · rw [if_neg hk] at hp
      constructor
      · intro hc; exact hp (List.mem_append_left _ hc)
      · intro hc; exact hp (List.mem_append_right _ (by rw [hc]; exact List.mem_singleton_self k))
  rw [occCount_append_singleton, h4 p hpacc.1, if_neg (fun hc => hpacc.2 hc.symm)]

/-- The `base_periods` dict built for one key has duplicate-free keys listed in
first-seen order, and counts the occurrences of each pair. -/
theorem build_base_counts_inv (ts : List CpiTuple) :
    ((build_base_counts ts).map Prod.fst).Nodup ∧
    (build_base_counts ts).map Prod.fst
      = firstSeen (ts.map (fun t => (t.2.1, t.2.2))) ∧
    (∀ q ∈ build_base_counts ts,
      q.2 = occCount q.1 (ts.map (fun t => (t.2.1, t.2.2)))) ∧
    (∀ p, p ∉ (build_base_counts ts).map Prod.fst →
      occCount p (ts.map (fun t => (t.2.1, t.2.2))) = 0) := by
  induction ts using List.reverseRecOn with
  | nil =>
    refine ⟨by simp [build_base_counts], by simp [build_base_counts, firstSeen], ?_, ?_⟩
    · intro q hq
      simp [build_base_counts] at hq
    · intro p _
      simp [occCount]
  | append_singleton ts t ih =>
    obtain ⟨i1, i2, i3, i4⟩ := ih
    have hb : build_base_counts (ts ++ [t])
        = bump_count (build_base_counts ts) (t.2.1, t.2.2) := by
      rw [build_base_counts, List.foldl_append]
      rfl
    have hm : (ts ++ [t]).map (fun u : CpiTuple => (u.2.1, u.2.2))
        = ts.map (fun u => (u.2.1, u.2.2)) ++ [(t.2.1, t.2.2)] := by simp
    rw [hb, hm]
    refine ⟨bump_count_nodup i1, ?_, ?_, ?_⟩
    · rw [bump_count_keys, i2, firstSeen_append_singleton]
      by_cases hmem : (t.2.1, t.2.2) ∈ firstSeen (ts.map (fun u : CpiTuple => (u.2.1, u.2.2)))
      · rw [if_pos hmem, if_pos hmem]
      · rw [if_neg hmem, if_neg hmem]
    · exact bump_count_counts (build_base_counts ts) i1 i3
        (fun hk => i4 (t.2.1, t.2.2) hk)
    · exact bump_count_uncovered i4

/-- Python `max(..., key=...)` over a nonempty list: the result splits the list
around the first element attaining the maximal count. -/
theorem py_max_fold_spec :
    ∀ (l : List ((String × ℚ) × Nat)) (x0 : (String × ℚ) × Nat),
      ∃ l1 l2,
        x0 :: l = l1 ++ (List.foldl (fun m y => if y.2 > m.2 then y else m) x0 l) :: l2 ∧
        (∀ q ∈ l1, q.2 < (List.foldl (fun m y => if y.2 > m.2 then y else m) x0 l).2) ∧
        (∀ q ∈ x0 :: l,
          q.2 ≤ (List.foldl (fun m y => if y.2 > m.2 then y else m) x0 l).2) := by
  intro l
  induction l with
  | nil =>
    intro x0
    exact ⟨[], [], rfl, by simp, by simp⟩
  | cons y ys ih =>
    intro x0
    rw [List.foldl_cons]
    by_cases hy : y.2 > x0.2
    · rw [if_pos hy]
      obtain ⟨l1, l2, heq, hlt, hle⟩ := ih y
      refine ⟨x0 :: l1, l2, ?_, ?_, ?_⟩
      · rw [List.cons_append, ← heq]
      · intro q hq
        rcases List.mem_cons.mp hq with hq | hq
        · rw [hq]
          exact lt_of_lt_of_le hy (hle y (List.mem_cons_self y ys))
        · exact hlt q hq
      · intro q hq
        rcases List.mem_cons.mp hq with hq | hq
        · rw [hq]
          exact le_of_lt (lt_of_lt_of_le hy (hle y (List.mem_cons_self y ys)))
        · exact hle q hq
    · rw [if_neg hy]
      have hyle : y.2 ≤ x0.2 := Nat.le_of_not_lt hy
      obtain ⟨l1, l2, heq, hlt, hle⟩ := ih x0
      cases l1 with
      | nil =>
        rw [List.nil_append] at heq
        injection heq with h1 h2
        refine ⟨[], y :: l2, ?_, by simp, ?_⟩
        · rw [List.nil_append, ← h1, h2]
        · intro q hq
          rcases List.mem_cons.mp hq with hq | hq
          · rw [hq]
            exact hle x0 (List.mem_cons_self x0 ys)
          rcases List.mem_cons.mp hq with hq2 | hq2
          · rw [hq2]
            exact le_trans hyle (hle x0 (List.mem_cons_self x0 ys))
          · exact hle q (List.mem_cons_of_mem x0 hq2)
      | cons a l1' =>
        rw [List.cons_append] at heq
        injection heq with h1 h2
        refine ⟨x0 :: y :: l1', l2, ?_, ?_, ?_⟩
        · rw [List.cons_append, List.cons_append, ← h2]
        · intro q hq
          have ha : a.2 < (List.foldl (fun m y => if y.2 > m.2 then y else m) x0 ys).2 :=
            hlt a (List.mem_cons_self a l1')
          rcases List.mem_cons.mp hq with hq | hq
          · rw [hq]
            have hx : x0.2 = a.2 := congrArg Prod.snd h1
            rw [hx]
            exact ha
          rcases List.mem_cons.mp hq with hq2 | hq2
          · rw [hq2]
            have hx : x0.2 = a.2 := congrArg Prod.snd h1
            exact lt_of_le_of_lt (le_trans hyle (le_of_eq hx)) ha
          · exact hlt q (List.mem_cons_of_mem a hq2)
        · intro q hq
          rcases List.mem_cons.mp hq with hq | hq
          · rw [hq]
            exact hle x0 (List.mem_cons_self x0 ys)
          rcases List.mem_cons.mp hq with hq2 | hq2
          · rw [hq2]
            exact le_trans hyle (hle x0 (List.mem_cons_self x0 ys))
          · exact hle q (List.mem_cons_of_mem x0 hq2)

theorem build_base_counts_ne_nil {ts : List CpiTuple} (h : ts ≠ []) :
    build_base_counts ts ≠ [] := by
  rcases List.eq_nil_or_concat ts with hc | ⟨ts', t, hc⟩
  · exact absurd hc h
  · rw [hc, List.concat_eq_append, build_base_counts, List.foldl_append]
    simp only [List.foldl_cons, List.foldl_nil]
    exact bump_count_ne_nil _ _

/-! ## Claim theorem: C4 -/

/-- **C4.** For every aggregation key in the CPI load, the
`(base_period, base_value)` pair written with the mean is the pair with the
highest occurrence count among the rows collected for that key; on ties the
pair first seen in the underlying iteration order wins: the `base_periods`
dict lists pairs in first-seen order with their exact occurrence counts, and
Python's `max(..., key=...)` returns the first entry attaining the maximum. -/
theorem cpi_base_pair_most_common (ts : List CpiTuple) (hne : ts ≠ []) :
    ∃ (bp : String × ℚ) (c : Nat) (l1 l2 : List ((String × ℚ) × Nat)),
      choose_base ts = some bp ∧
      py_max_by_count (build_base_counts ts) = some (bp, c) ∧
      build_base_counts ts = l1 ++ (bp, c) :: l2 ∧
      (∀ q ∈ l1, q.2 < c) ∧
      (∀ q ∈ build_base_counts ts, q.2 ≤ c) ∧
      (∀ q ∈ build_base_counts ts,
        q.2 = occCount q.1 (ts.map (fun t => (t.2.1, t.2.2)))) ∧
      (build_base_counts ts).map Prod.fst
        = firstSeen (ts.map (fun t => (t.2.1, t.2.2))) ∧
      (∀ (sv : List (SVKey × List CpiTuple)) (k : SVKey), (k, ts) ∈ sv →
        (k, (ts.map (fun t => t.1)).sum / ts.length, bp.1, bp.2) ∈ cpi_inserts sv) := by
  obtain ⟨i1, i2, i3, i4⟩ := build_base_counts_inv ts
  have hbne := build_base_counts_ne_nil hne
  cases hc : build_base_counts ts with
  | nil => exact absurd hc hbne
  | cons x xs =>
    obtain ⟨l1, l2, heq, hlt, hle⟩ := py_max_fold_spec xs x
    have hcb : choose_base ts
        = some (List.foldl (fun m y => if y.2 > m.2 then y else m) x xs).1 := by
      rw [choose_base, hc]
      rfl
    refine ⟨(List.foldl (fun m y => if y.2 > m.2 then y else m) x xs).1,
      (List.foldl (fun m y => if y.2 > m.2 then y else m) x xs).2, l1, l2,
      hcb, ?_, ?_, hlt, ?_, ?_, ?_, ?_⟩
    · rfl
    · exact heq
    · intro q hq
      exact hle q hq
    · intro q hq
      rw [hc] at i3
      exact i3 q hq
    · rw [hc] at i2
      exact i2
    · intro sv k hk
      have hts : ts.isEmpty = false := by
        cases ts with
        | nil => exact absurd rfl hne
        | cons a l => rfl
      refine List.mem_filterMap.mpr ⟨(k, ts), hk, ?_⟩
      show (if ts.isEmpty then none
        else
          match choose_base ts with
          | some bp => some ((k, ts).1, (ts.map (fun t => t.1)).sum / ts.length, bp.1, bp.2)
          | none => none)
        = some (k, (ts.map (fun t => t.1)).sum / ts.length,
            (List.foldl (fun m y => if y.2 > m.2 then y else m) x xs).1.1,
            (List.foldl (fun m y => if y.2 > m.2 then y else m) x xs).1.2)
      rw [hts, hcb]
      rfl

/-- Witness for C4 at the spec's example: `"1982-84=100"` seen three times and
`"1967=100"` once, so the chosen pair is `("1982-84", 100)`. -/
theorem cpi_base_pair_most_common_witness :
    choose_base exTuples = some ("1982-84", 100) ∧
    (∃ (bp : String × ℚ) (c : Nat) (l1 l2 : List ((String × ℚ) × Nat)),
      choose_base exTuples = some bp ∧
      py_max_by_count (build_base_counts exTuples) = some (bp, c) ∧
      build_base_counts exTuples = l1 ++ (bp, c) :: l2 ∧
      (∀ q ∈ l1, q.2 < c) ∧
      (∀ q ∈ build_base_counts exTuples, q.2 ≤ c) ∧
      (∀ q ∈ build_base_counts exTuples,
        q.2 = occCount q.1 (exTuples.map (fun t => (t.2.1, t.2.2)))) ∧
      (build_base_counts exTuples).map Prod.fst
        = firstSeen (exTuples.map (fun t => (t.2.1, t.2.2))) ∧
      (∀ (sv : List (SVKey × List CpiTuple)) (k : SVKey), (k, exTuples) ∈ sv →
        (k, (exTuples.map (fun t => t.1)).sum / exTuples.length, bp.1, bp.2)
          ∈ cpi_inserts sv)) :=
  ⟨by decide, cpi_base_pair_most_common exTuples (by decide)⟩

/-! ## Claim theorem: C3 -/

/-- **C3.** For every aggregation key, the value stored by the Value
Aggregator is the arithmetic mean of the values collected for that key (in
both fact-table loads), and only rows with a non-missing value are collected:
a row whose value is missing/unparseable (NaN after `to_numeric(...,
errors='coerce')`) leaves the state and the aggregation map completely
untouched, so it never enters any mean; in particular the mean of the values
`[10, 20, 30]` is `20`. -/
theorem aggregator_mean_of_collected :
    (∀ (meta : String → FoodMetaRow) (areas : String → String) (st : ETLState)
        (sv : List (SVKey × List ℚ)) (row : SeriesRow),
        row.value = none →
        food_process_row meta areas st sv row = Except.ok (st, sv)) ∧
    (∀ (meta : String → CpiMetaRow) (areas : String → String) (st : ETLState)
        (sv : List (SVKey × List CpiTuple)) (warns : List String) (row : SeriesRow),
        row.value = none →
        cpi_process_row meta areas st sv warns row = Except.ok (st, sv, warns)) ∧
    (∀ (sv : List (SVKey × List ℚ)) (k : SVKey) (vs : List ℚ),
        (k, vs) ∈ sv → vs ≠ [] → (k, mean vs) ∈ food_inserts sv) ∧
    (∀ (sv : List (SVKey × List CpiTuple)) (k : SVKey) (ts : List CpiTuple)
        (bp : String × ℚ),
        (k, ts) ∈ sv → ts ≠ [] → choose_base ts = some bp →
        (k, mean (ts.map (fun t => t.1)), bp.1, bp.2) ∈ cpi_inserts sv) ∧
    mean [10, 20, 30] = 20 := by
  refine ⟨?_, ?_, ?_, ?_, ?_⟩
  · intro meta areas st sv row h
    simp only [food_process_row, h]
  · intro meta areas st sv warns row h
    simp only [cpi_process_row, h]
  · intro sv k vs hk hne
    have hvs : vs.isEmpty = false := by
      cases vs with
      | nil => exact absurd rfl hne
      | cons a l => rfl
    refine List.mem_filterMap.mpr ⟨(k, vs), hk, ?_⟩
    show (if vs.isEmpty then none else some ((k, vs).1, vs.sum / vs.length))
      = some (k, mean vs)
    rw [hvs]
    rfl
  · intro sv k ts bp hk hne hcb
    have hts : ts.isEmpty = false := by
      cases ts with
      | nil => exact absurd rfl hne
      | cons a l => rfl
    refine List.mem_filterMap.mpr ⟨(k, ts), hk, ?_⟩
    show (if ts.isEmpty then none
      else
        match choose_base ts with
        | some bp => some ((k, ts).1, (ts.map (fun t => t.1)).sum / ts.length, bp.1, bp.2)
        | none => none)
      = some (k, mean (ts.map (fun t => t.1)), bp.1, bp.2)
    rw [hts, hcb]
    simp only [mean, List.length_map]
    rfl
  · norm_num [mean, List.sum_cons, List.sum_nil]

/-- Witness for C3: a missing-value row is a no-op for both loads, and the
spec's `[10, 20, 30]` example key receives its mean. -/
theorem aggregator_mean_of_collected_witness :
    food_process_row exFoodMeta exAreas etlInit []
        ⟨"APU0000", 2020, "M01", none⟩ = Except.ok (etlInit, []) ∧
    cpi_process_row exCpiMeta exAreas etlInit [] []
        ⟨"CUUR0000SA0", 2020, "M01", none⟩ = Except.ok (etlInit, [], []) ∧
    ((0, 1, "FC1101"), mean [10, 20, 30])
      ∈ food_inserts [((0, 1, "FC1101"), [10, 20, 30])] ∧
    ((0, 1, "SA0"), mean (exTuples.map (fun t => t.1)), "1982-84", (100 : ℚ))
      ∈ cpi_inserts [((0, 1, "SA0"), exTuples)] :=
  ⟨aggregator_mean_of_collected.1 exFoodMeta exAreas etlInit []
     ⟨"APU0000", 2020, "M01", none⟩ rfl,
   aggregator_mean_of_collected.2.1 exCpiMeta exAreas etlInit [] []
     ⟨"CUUR0000SA0", 2020, "M01", none⟩ rfl,
   aggregator_mean_of_collected.2.2.1 [((0, 1, "FC1101"), [10, 20, 30])]
     (0, 1, "FC1101") [10, 20, 30] (by decide) (by decide),
   aggregator_mean_of_collected.2.2.2.1 [((0, 1, "SA0"), exTuples)]
     (0, 1, "SA0") exTuples ("1982-84", 100) (by decide) (by decide) (by decide)⟩

/-! ## Fan-out lemmas (C2): list and map plumbing -/

theorem sum_const_list {l : List ℚ} {v : ℚ} (h : ∀ x ∈ l, x = v) :
    l.sum = l.length * v := by
  induction l with
  | nil => simp
  | cons a t ih =>
    rw [List.sum_cons, ih (fun x hx => h x (List.mem_cons_of_mem a hx)),
      h a (List.mem_cons_self a t), List.length_cons]
    push_cast
    ring

theorem mean_const {l : List ℚ} {v : ℚ} (hne : l ≠ []) (h : ∀ x ∈ l, x = v) :
    l.sum / l.length = v := by
  rw [sum_const_list h]
  have h0 : l.length ≠ 0 := by
    intro hc
    exact hne (List.length_eq_zero.mp hc)
  have hlen : (l.length : ℚ) ≠ 0 := Nat.cast_ne_zero.mpr h0
  field_simp

theorem food_inserts_mem {sv : List (SVKey × List ℚ)} {k : SVKey} {vs : List ℚ}
    (hk : (k, vs) ∈ sv) (hne : vs ≠ []) :
    (k, vs.sum / vs.length) ∈ food_inserts sv := by
  have hvs : vs.isEmpty = false := by
    cases vs with
    | nil => exact absurd rfl hne
    | cons a l => rfl
  refine List.mem_filterMap.mpr ⟨(k, vs), hk, ?_⟩
  show (if vs.isEmpty then none else some ((k, vs).1, vs.sum / vs.length))
    = some (k, vs.sum / vs.length)
  rw [hvs]
  rfl

theorem mem_svFilter {mpid : Nat} {itm : String} {sv : List (SVKey × List ℚ)}
    {e : SVKey × List ℚ} :
    e ∈ svFilter mpid itm sv ↔ e ∈ sv ∧ (e.1.2.1 = mpid ∧ e.1.2.2 = itm) := by
  induction sv with
  | nil => simp [svFilter]
  | cons f rest ih =>
    rw [svFilter]
    by_cases hf : f.1.2.1 = mpid ∧ f.1.2.2 = itm
    · rw [if_pos hf]
      constructor
      · intro h
        rcases List.mem_cons.mp h with h | h
        · refine ⟨List.mem_cons.mpr (Or.inl h), ?_⟩
          rw [h]
          exact hf
        · obtain ⟨h1, h2⟩ := ih.mp h
          exact ⟨List.mem_cons_of_mem f h1, h2⟩
      · intro ⟨h1, h2⟩
        rcases List.mem_cons.mp h1 with h1 | h1
        · exact List.mem_cons.mpr (Or.inl h1)
        · exact List.mem_cons_of_mem f (ih.mpr ⟨h1, h2⟩)
    · rw [if_neg hf]
      constructor
      · intro h
        obtain ⟨h1, h2⟩ := ih.mp h
        exact ⟨List.mem_cons_of_mem f h1, h2⟩
      · intro ⟨h1, h2⟩
        rcases List.mem_cons.mp h1 with h1 | h1
        · refine absurd ?_ hf
          rw [← h1]
          exact h2
        · exact ih.mpr ⟨h1, h2⟩

theorem svFilter_eq_nil {mpid : Nat} {itm : String} {sv : List (SVKey × List ℚ)}
    (h : ∀ e ∈ sv, e.1.2.2 ≠ itm) : svFilter mpid itm sv = [] := by
  induction sv with
  | nil => rfl
  | cons f rest ih =>
    rw [svFilter,
      if_neg (fun hc => h f (List.mem_cons_self f rest) hc.2)]
    exact ih (fun e he => h e (List.mem_cons_of_mem f he))

/-- `appendAt` with a key outside the filter leaves the filtered view intact. -/
theorem svFilter_appendAt_not {mpid : Nat} {itm : String} {k : SVKey} (x : ℚ)
    (hk : ¬(k.2.1 = mpid ∧ k.2.2 = itm)) :
    ∀ sv : List (SVKey × List ℚ),
      svFilter mpid itm (appendAt sv k x) = svFilter mpid itm sv := by
  intro sv
  induction sv with
  | nil =>
    show (if k.2.1 = mpid ∧ k.2.2 = itm then (k, [x]) :: svFilter mpid itm []
      else svFilter mpid itm []) = svFilter mpid itm []
    rw [if_neg hk]
  | cons e rest ih =>
    rw [appendAt]
    by_cases he : e.1 = k
    · rw [if_pos he, svFilter, svFilter]
      have hek : ¬(e.1.2.1 = mpid ∧ e.1.2.2 = itm) := by rw [he]; exact hk
      rw [if_neg hek, if_neg hek]
    · rw [if_neg he, svFilter, svFilter]
      by_cases hef : e.1.2.1 = mpid ∧ e.1.2.2 = itm
      · rw [if_pos hef, if_pos hef, ih]
      · rw [if_neg hef, if_neg hef, ih]

/-- `appendAt` with a fresh key inside the filter appends one `[x]` entry. -/
theorem svFilter_appendAt_fresh {mpid : Nat} {itm : String} {k : SVKey} (x : ℚ)
    (hk : k.2.1 = mpid ∧ k.2.2 = itm) :
    ∀ sv : List (SVKey × List ℚ),
      (∀ e ∈ sv, e.1 ≠ k) →
      svFilter mpid itm (appendAt sv k x) = svFilter mpid itm sv ++ [(k, [x])] := by
  intro sv
  induction sv with
  | nil =>
    intro _
    rw [appendAt, svFilter, svFilter]
    rw [if_pos hk]
    rfl
  | cons e rest ih =>
    intro hfresh
    rw [appendAt,
      if_neg (hfresh e (List.mem_cons_self e rest)), svFilter, svFilter]
    by_cases hef : e.1.2.1 = mpid ∧ e.1.2.2 = itm
    · rw [if_pos hef, if_pos hef,
        ih (fun f hf => hfresh f (List.mem_cons_of_mem e hf)), List.cons_append]
    · rw [if_neg hef, if_neg hef,
        ih (fun f hf => hfresh f (List.mem_cons_of_mem e hf))]

/-- Every entry after `appendAt` is an old entry, or carries key `k` with its
list equal to `[x]` or an old list extended by `x`. -/
theorem appendAt_entries {k : SVKey} {x : ℚ} :
    ∀ (sv : List (SVKey × List ℚ)) (e : SVKey × List ℚ), e ∈ appendAt sv k x →
      e ∈ sv ∨ (e.1 = k ∧ (e.2 = [x] ∨ ∃ l, (k, l) ∈ sv ∧ e.2 = l ++ [x])) := by
  intro sv
  induction sv with
  | nil =>
    intro e he
    rw [appendAt] at he
    right
    rw [List.mem_singleton.mp he]
    exact ⟨rfl, Or.inl rfl⟩
  | cons f rest ih =>
    intro e he
    rw [appendAt] at he
    by_cases hf : f.1 = k
    · rw [if_pos hf] at he
      rcases List.mem_cons.mp he with he | he
      · right
        rw [he]
        refine ⟨hf, Or.inr ⟨f.2, ?_, rfl⟩⟩
        rw [← hf]
        exact List.mem_cons_self f rest
      · exact Or.inl (List.mem_cons_of_mem f he)
    · rw [if_neg hf] at he
      rcases List.mem_cons.mp he with he | he
      · exact Or.inl (List.mem_cons.mpr (Or.inl he))
      · rcases ih e he with h | ⟨h1, h2⟩
        · exact Or.inl (List.mem_cons_of_mem f h)
        · refine Or.inr ⟨h1, ?_⟩
          rcases h2 with h2 | ⟨l, hl, h3⟩
          · exact Or.inl h2
          · exact Or.inr ⟨l, List.mem_cons_of_mem f hl, h3⟩

/-- The map-on-keys of the filtered view is unchanged by `appendAt`, provided
the key is already present or outside the filter. -/
theorem svFilter_map_fst_appendAt_present {mpid : Nat} {itm : String} {k : SVKey}
    (x : ℚ) :
    ∀ sv : List (SVKey × List ℚ), (∃ l, (k, l) ∈ sv) →
      (svFilter mpid itm (appendAt sv k x)).map Prod.fst
        = (svFilter mpid itm sv).map Prod.fst := by
  intro sv
  induction sv with
  | nil =>
    intro ⟨l, hl⟩
    simp at hl
  | cons e rest ih =>
    intro ⟨l, hl⟩
    rw [appendAt]
    by_cases he : e.1 = k
    · rw [if_pos he, svFilter, svFilter]
      by_cases hef : e.1.2.1 = mpid ∧ e.1.2.2 = itm
      · rw [if_pos hef, if_pos hef]
        rfl
      · rw [if_neg hef, if_neg hef]
    · rw [if_neg he, svFilter, svFilter]
      have hrest : ∃ l, (k, l) ∈ rest := by
        rcases List.mem_cons.mp hl with hc | hc
        · exact absurd (congrArg Prod.fst hc.symm) he
        · exact ⟨l, hc⟩
      by_cases hef : e.1.2.1 = mpid ∧ e.1.2.2 = itm
      · rw [if_pos hef, if_pos hef, List.map_cons, List.map_cons, ih hrest]
      · rw [if_neg hef, if_neg hef, ih hrest]

/-! ## Fan-out lemmas (C2): state plumbing across one row -/

theorem get_or_create_period_region_map (s : ETLState) (y : Nat) (m : Option Nat) :
    (get_or_create_period s y m).2.region_map = s.region_map := by
  cases hl : alookup (y, m) s.period_map with
  | some pid => rw [get_or_create_period, hl]
  | none => rw [get_or_create_period, hl]

theorem get_or_create_period_period_map_mono (s : ETLState) (y : Nat) (m : Option Nat) :
    ∃ t, (get_or_create_period s y m).2.period_map = s.period_map ++ t := by
  cases hl : alookup (y, m) s.period_map with
  | some pid =>
    rw [get_or_create_period, hl]
    exact ⟨[], by simp⟩
  | none =>
    rw [get_or_create_period, hl]
    exact ⟨_, rfl⟩

theorem resolveStates_period_map :
    ∀ (codes : List String) (s : ETLState),
      (resolveStates s codes).2.period_map = s.period_map := by
  intro codes
  induction codes with
  | nil => intro s; rfl
  | cons code rest ih =>
    intro s
    cases hl : alookup (normalize_state_name code) s.region_map with
    | some rid =>
      rw [resolveStates, hl]
      exact ih s
    | none =>
      rw [resolveStates, hl]
      exact ih _

theorem getOrCreatePlainRegion_period_map (s : ETLState) (n t : String) :
    (getOrCreatePlainRegion s n t).2.period_map = s.period_map := by
  cases hl : alookup n s.region_map with
  | some rid => rw [getOrCreatePlainRegion, hl]
  | none => rw [getOrCreatePlainRegion, hl]

theorem get_or_create_region_period_map (s : ETLState) (n t : String) :
    (get_or_create_region s n t).2.period_map = s.period_map := by
  rw [get_or_create_region]
  by_cases hcond : ',' ∈ n.data ∨ n = "Urban Alaska" ∨ n = "Urban Hawaii"
  · rw [if_pos hcond]
    by_cases hne : extract_states_from_area_name n ≠ []
    · rw [if_pos hne]
      exact resolveStates_period_map _ s
    · rw [if_neg hne]
      exact getOrCreatePlainRegion_period_map s n t
  · rw [if_neg hcond]
    exact getOrCreatePlainRegion_period_map s n t

theorem getOrCreatePlainRegion_region_map_mono (s : ETLState) (n t : String) :
    ∃ u, (getOrCreatePlainRegion s n t).2.region_map = s.region_map ++ u := by
  cases hl : alookup n s.region_map with
  | some rid =>
    rw [getOrCreatePlainRegion, hl]
    exact ⟨[], by simp⟩
  | none =>
    rw [getOrCreatePlainRegion, hl]
    exact ⟨_, rfl⟩

theorem get_or_create_region_region_map_mono (s : ETLState) (n t : String) :
    ∃ u, (get_or_create_region s n t).2.region_map = s.region_map ++ u := by
  rw [get_or_create_region]
  by_cases hcond : ',' ∈ n.data ∨ n = "Urban Alaska" ∨ n = "Urban Hawaii"
  · rw [if_pos hcond]
    by_cases hne : extract_states_from_area_name n ≠ []
    · rw [if_pos hne]
      obtain ⟨u, hu⟩ := resolveStates_region_map_mono (extract_states_from_area_name n) s
      exact ⟨u, hu⟩
    · rw [if_neg hne]
      exact getOrCreatePlainRegion_region_map_mono s n t
  · rw [if_neg hcond]
    exact getOrCreatePlainRegion_region_map_mono s n t

/-- In the multi-state branch, `_get_or_create_region` is exactly the
per-state-code loop. -/
theorem get_or_create_region_multi {s : ETLState} {n : String} (t : String)
    (hcond : ',' ∈ n.data ∨ n = "Urban Alaska" ∨ n = "Urban Hawaii")
    (hne : extract_states_from_area_name n ≠ []) :
    get_or_create_region s n t = resolveStates s (extract_states_from_area_name n) := by
  rw [get_or_create_region, if_pos hcond, if_pos hne]

/-- Unfolding of the per-series loop body of `load_food_prices` on a row with
a present value and a parseable period. -/
theorem food_process_row_some (meta : String → FoodMetaRow) (areas : String → String)
    (st : ETLState) (sv : List (SVKey × List ℚ)) (row : SeriesRow) (v : ℚ) (mon : Nat)
    (hv : row.value = some v)
    (hmon : pyInt? (pyRemoveChar 'M' row.period) = some mon) :
    food_process_row meta areas st sv row =
      Except.ok
        ((get_or_create_period
            (get_or_create_period
              (get_or_create_region st (areas (meta row.series_id).area_code) "region").2
              row.year (some mon)).2
            row.year none).2,
         (get_or_create_region st (areas (meta row.series_id).area_code) "region").1.foldl
           (fun acc rid =>
             appendAt
               (appendAt acc
                 (rid,
                  (get_or_create_period
                    (get_or_create_region st
                      (areas (meta row.series_id).area_code) "region").2
                    row.year (some mon)).1,
                  (meta row.series_id).item_code) v)
               (rid,
                (get_or_create_period
                  (get_or_create_period
                    (get_or_create_region st
                      (areas (meta row.series_id).area_code) "region").2
                    row.year (some mon)).2
                  row.year none).1,
                (meta row.series_id).item_code) v) sv) := by
  simp only [food_process_row, hv, hmon]

/-- A failed period parse makes the food row step raise. -/
theorem food_process_row_parse_error (meta : String → FoodMetaRow)
    (areas : String → String) (st : ETLState) (sv : List (SVKey × List ℚ))
    (row : SeriesRow) (v : ℚ)
    (hv : row.value = some v)
    (hmon : pyInt? (pyRemoveChar 'M' row.period) = none) :
    food_process_row meta areas st sv row
      = Except.error ("invalid literal for int: " ++ row.period) := by
  simp only [food_process_row, hv, hmon]

theorem inv_food_process_row {meta : String → FoodMetaRow} {areas : String → String}
    {st : ETLState} {sv : List (SVKey × List ℚ)} {row : SeriesRow}
    {st' : ETLState} {sv' : List (SVKey × List ℚ)}
    (hinv : Inv st)
    (h : food_process_row meta areas st sv row = Except.ok (st', sv')) :
    Inv st' := by
  cases hval : row.value with
  | none =>
    simp only [food_process_row, hval] at h
    injection h with h1
    injection h1 with h2 h3
    rw [← h2]
    exact hinv
  | some v =>
    cases hm : pyInt? (pyRemoveChar 'M' row.period) with
    | none =>
      rw [food_process_row_parse_error meta areas st sv row v hval hm] at h
      exact absurd h (by simp)
    | some mon =>
      rw [food_process_row_some meta areas st sv row v mon hval hm] at h
      injection h with h1
      injection h1 with h2 h3
      rw [← h2]
      exact inv_get_or_create_period
        (inv_get_or_create_period
          (inv_get_or_create_region hinv (areas (meta row.series_id).area_code) "region")
          row.year (some mon))
        row.year none

/-- Across one successful food row, both caches only grow. -/
theorem food_process_row_maps_mono {meta : String → FoodMetaRow}
    {areas : String → String} {st : ETLState} {sv : List (SVKey × List ℚ)}
    {row : SeriesRow} {st' : ETLState} {sv' : List (SVKey × List ℚ)}
    (h : food_process_row meta areas st sv row = Except.ok (st', sv')) :
    (∃ u, st'.region_map = st.region_map ++ u) ∧
    (∃ u, st'.period_map = st.period_map ++ u) := by
  cases hval : row.value with
  | none =>
    simp only [food_process_row, hval] at h
    injection h with h1
    injection h1 with h2 h3
    rw [← h2]
    exact ⟨⟨[], by simp⟩, ⟨[], by simp⟩⟩
  | some v =>
    cases hm : pyInt? (pyRemoveChar 'M' row.period) with
    | none =>
      rw [food_process_row_parse_error meta areas st sv row v hval hm] at h
      exact absurd h (by simp)
    | some mon =>
      rw [food_process_row_some meta areas st sv row v mon hval hm] at h
      injection h with h1
      injection h1 with h2 h3
      rw [← h2]
      constructor
      · rw [get_or_create_period_region_map, get_or_create_period_region_map]
        exact get_or_create_region_region_map_mono st _ "region"
      · obtain ⟨u1, hu1⟩ := get_or_create_period_period_map_mono
          (get_or_create_region st (areas (meta row.series_id).area_code) "region").2
          row.year (some mon)
        obtain ⟨u2, hu2⟩ := get_or_create_period_period_map_mono
          (get_or_create_period
            (get_or_create_region st (areas (meta row.series_id).area_code) "region").2
            row.year (some mon)).2
          row.year none
        refine ⟨u1 ++ u2, ?_⟩
        rw [hu2, hu1, get_or_create_region_period_map, List.append_assoc]

/-! ## Fan-out lemmas (C2): `Forall₂` and the per-row double-append fold -/

theorem forall2_mem_right {α β : Type} {R : α → β → Prop} :
    ∀ {l1 : List α} {l2 : List β}, List.Forall₂ R l1 l2 →
      ∀ b ∈ l2, ∃ a ∈ l1, R a b := by
  intro l1 l2 h
  induction h with
  | nil =>
    intro b hb
    simp at hb
  | @cons a0 b0 l1' l2' hd tl ih =>
    intro b hb
    rcases List.mem_cons.mp hb with hb | hb
    · exact ⟨a0, List.mem_cons_self a0 l1', by rw [hb]; exact hd⟩
    · obtain ⟨a, ha, hR⟩ := ih b hb
      exact ⟨a, List.mem_cons_of_mem _ ha, hR⟩

/-- Duplicate-free names resolve to duplicate-free ids (cache injectivity). -/
theorem forall2_lookup_nodup {s : ETLState} (hinv : Inv s) :
    ∀ {names : List String} {ids : List Nat},
      List.Forall₂ (fun nm i => alookup nm s.region_map = some i) names ids →
      names.Nodup → ids.Nodup := by
  intro names ids h
  induction h with
  | nil => intro _; exact List.nodup_nil
  | cons hd tl ih =>
    intro hnd
    obtain ⟨hnotin, hnd2⟩ := List.nodup_cons.mp hnd
    refine List.nodup_cons.mpr ⟨?_, ih hnd2⟩
    intro hmem
    obtain ⟨nm2, hnm2, hlk⟩ := forall2_mem_right tl _ hmem
    have heq := region_cache_inj hinv hd hlk
    rw [heq] at hnotin
    exact hnotin hnm2

/-- Region lookups persist when the cache grows. -/
theorem forall2_lookup_mono {rm rm2 : List (String × Nat)} {names : List String}
    {ids : List Nat}
    (h : List.Forall₂ (fun nm i => alookup nm rm = some i) names ids)
    (hsub : ∃ u, rm2 = rm ++ u) :
    List.Forall₂ (fun nm i => alookup nm rm2 = some i) names ids := by
  refine h.imp (fun a b hab => ?_)
  obtain ⟨u, hu⟩ := hsub
  rw [hu]
  exact alookup_append_of_eq_some u hab

/-- A key present in the map stays present under `appendAt`. -/
theorem appendAt_preserves_key {k0 k : SVKey} {x : ℚ} :
    ∀ sv : List (SVKey × List ℚ), (∃ l, (k0, l) ∈ sv) →
      ∃ l2, (k0, l2) ∈ appendAt sv k x := by
  intro sv
  induction sv with
  | nil =>
    intro ⟨l, hl⟩
    simp at hl
  | cons e rest ih =>
    intro ⟨l, hl⟩
    rw [appendAt]
    by_cases he : e.1 = k
    · rw [if_pos he]
      rcases List.mem_cons.mp hl with hl | hl
      · refine ⟨e.2 ++ [x], List.mem_cons.mpr (Or.inl ?_)⟩
        have hk0 : k0 = e.1 := congrArg Prod.fst hl
        rw [hk0]
      · exact ⟨l, List.mem_cons_of_mem _ hl⟩
    · rw [if_neg he]
      rcases List.mem_cons.mp hl with hl | hl
      · exact ⟨l, List.mem_cons.mpr (Or.inl hl)⟩
      · obtain ⟨l2, hl2⟩ := ih ⟨l, hl⟩
        exact ⟨l2, List.mem_cons_of_mem _ hl2⟩

/-- `appendAt` leaves the key of the map's self-entry present. -/
theorem appendAt_self_key {k : SVKey} {x : ℚ} :
    ∀ sv : List (SVKey × List ℚ), ∃ l, (k, l) ∈ appendAt sv k x := by
  intro sv
  induction sv with
  | nil => exact ⟨[x], List.mem_singleton_self _⟩
  | cons e rest ih =>
    rw [appendAt]
    by_cases he : e.1 = k
    · rw [if_pos he]
      refine ⟨e.2 ++ [x], List.mem_cons.mpr (Or.inl ?_)⟩
      rw [← he]
    · obtain ⟨l, hl⟩ := ih
      rw [if_neg he]
      exact ⟨l, List.mem_cons_of_mem _ hl⟩

/-- All-`v` entries of the filtered view survive an `appendAt` of `v`. -/
theorem svFilter_appendAt_allv {mpid : Nat} {itm : String} {k : SVKey} {v : ℚ}
    {sv : List (SVKey × List ℚ)}
    (hall : ∀ e ∈ svFilter mpid itm sv, e.2 ≠ [] ∧ ∀ x ∈ e.2, x = v) :
    ∀ e ∈ svFilter mpid itm (appendAt sv k v), e.2 ≠ [] ∧ ∀ x ∈ e.2, x = v := by
  intro e he
  obtain ⟨hmem, hcond⟩ := mem_svFilter.mp he
  rcases appendAt_entries sv e hmem with hold | ⟨hk, hl⟩
  · exact hall e (mem_svFilter.mpr ⟨hold, hcond⟩)
  · rcases hl with hl | ⟨l, hml, hl⟩
    · rw [hl]
      exact ⟨by simp, by intro x hx; simpa using hx⟩
    · have holdl := hall (k, l) (mem_svFilter.mpr ⟨hml, by rw [← hk]; exact hcond⟩)
      constructor
      · rw [hl]
        simp
      · intro x hx
        rw [hl] at hx
        rcases List.mem_append.mp hx with hx | hx
        · exact holdl.2 x hx
        · simpa using hx

/-- Every key the double-append fold touches is a monthly or yearly key of one
of its region ids, so any key-predicate true of those and of the existing
entries is preserved. -/
theorem fold_double_append_key_pred (mpid2 ypid2 : Nat) (itm2 : String) (v : ℚ)
    (Q : SVKey → Prop) :
    ∀ (ids : List Nat) (sv : List (SVKey × List ℚ)),
      (∀ rid ∈ ids, Q (rid, mpid2, itm2)) →
      (∀ rid ∈ ids, Q (rid, ypid2, itm2)) →
      (∀ e ∈ sv, Q e.1) →
      ∀ e ∈ ids.foldl (fun acc rid =>
          appendAt (appendAt acc (rid, mpid2, itm2) v) (rid, ypid2, itm2) v) sv,
        Q e.1 := by
  intro ids
  induction ids with
  | nil =>
    intro sv _ _ h e he
    exact h e he
  | cons id rest ih =>
    intro sv hm hy h e he
    rw [List.foldl_cons] at he
    refine ih _ (fun rid hr => hm rid (List.mem_cons_of_mem id hr))
      (fun rid hr => hy rid (List.mem_cons_of_mem id hr)) ?_ e he
    intro f hf
    rcases appendAt_entries _ f hf with hf2 | ⟨hk, -⟩
    · rcases appendAt_entries _ f hf2 with hf3 | ⟨hk, -⟩
      · exact h f hf3
      · rw [hk]
        exact hm id (List.mem_cons_self id rest)
    · rw [hk]
      exact hy id (List.mem_cons_self id rest)

/-- The double-append fold of another item leaves this item's filtered view
untouched. -/
theorem fold_double_append_filter_other {mpid : Nat} {itm : String}
    (mpid2 ypid2 : Nat) (itm2 : String) (v : ℚ) (hitm : itm2 ≠ itm) :
    ∀ (ids : List Nat) (sv : List (SVKey × List ℚ)),
      svFilter mpid itm (ids.foldl (fun acc rid =>
          appendAt (appendAt acc (rid, mpid2, itm2) v) (rid, ypid2, itm2) v) sv)
        = svFilter mpid itm sv := by
  intro ids
  induction ids with
  | nil => intro sv; rfl
  | cons id rest ih =>
    intro sv
    rw [List.foldl_cons, ih,
      svFilter_appendAt_not v (fun hc => hitm hc.2) _,
      svFilter_appendAt_not v (fun hc => hitm hc.2) _]

/-- Fresh fan-out: folding the double append of value `v` over duplicate-free
region ids extends the filtered view by exactly one `[v]` entry per id, in
order. -/
theorem fold_double_append_fresh_go (mpid ypid : Nat) (itm : String) (v : ℚ)
    (hpy : mpid ≠ ypid) :
    ∀ (ids done : List Nat) (sv : List (SVKey × List ℚ)),
      (done ++ ids).Nodup →
      (svFilter mpid itm sv).map Prod.fst = done.map (fun i => (i, mpid, itm)) →
      (∀ e ∈ svFilter mpid itm sv, e.2 ≠ [] ∧ ∀ x ∈ e.2, x = v) →
      (∀ e ∈ sv, e.1.2.2 = itm → (e.1.2.1 = mpid ∧ e.1.1 ∈ done) ∨ e.1.2.1 = ypid) →
      (svFilter mpid itm (ids.foldl (fun acc rid =>
            appendAt (appendAt acc (rid, mpid, itm) v) (rid, ypid, itm) v) sv)).map
          Prod.fst
        = (done ++ ids).map (fun i => (i, mpid, itm)) ∧
      (∀ e ∈ svFilter mpid itm (ids.foldl (fun acc rid =>
            appendAt (appendAt acc (rid, mpid, itm) v) (rid, ypid, itm) v) sv),
        e.2 ≠ [] ∧ ∀ x ∈ e.2, x = v) ∧
      (∀ e ∈ ids.foldl (fun acc rid =>
            appendAt (appendAt acc (rid, mpid, itm) v) (rid, ypid, itm) v) sv,
        e.1.2.2 = itm → (e.1.2.1 = mpid ∧ e.1.1 ∈ done ++ ids) ∨ e.1.2.1 = ypid) := by
  intro ids
  induction ids with
  | nil =>
    intro done sv _ hmap hall hkey
    refine ⟨by simpa using hmap, hall, ?_⟩
    intro e he hitm
    rcases hkey e he hitm with ⟨h1, h2⟩ | h1
    · exact Or.inl ⟨h1, by simpa using h2⟩
    · exact Or.inr h1
  | cons id rest ih =>
    intro done sv hnodup hmap hall hkey
    rw [List.foldl_cons]
    have hdone_nodup := (List.nodup_append.mp hnodup).1
    have hcons_nodup := (List.nodup_append.mp hnodup).2.1
    have hdisj := (List.nodup_append.mp hnodup).2.2
    have hid_done : id ∉ done := fun hc =>
      hdisj hc (List.mem_cons_self id rest)
    have hid_rest : id ∉ rest := (List.nodup_cons.mp hcons_nodup).1
    have hfresh : ∀ e ∈ sv, e.1 ≠ (id, mpid, itm) := by
      intro e he hc
      have hitem : e.1.2.2 = itm := by rw [hc]
      rcases hkey e he hitem with ⟨-, h2⟩ | h1
      · rw [hc] at h2
        exact hid_done h2
      · rw [hc] at h1
        exact hpy h1
    have hstep1 : svFilter mpid itm (appendAt sv (id, mpid, itm) v)
        = svFilter mpid itm sv ++ [((id, mpid, itm), [v])] :=
      svFilter_appendAt_fresh v ⟨rfl, rfl⟩ sv hfresh
    have hstep2 : svFilter mpid itm
          (appendAt (appendAt sv (id, mpid, itm) v) (id, ypid, itm) v)
        = svFilter mpid itm (appendAt sv (id, mpid, itm) v) :=
      svFilter_appendAt_not v (fun hc => hpy hc.1.symm) _
    have hnodup2 : ((done ++ [id]) ++ rest).Nodup := by
      rw [List.append_assoc]
      exact hnodup
    have hmap2 : (svFilter mpid itm
          (appendAt (appendAt sv (id, mpid, itm) v) (id, ypid, itm) v)).map Prod.fst
        = (done ++ [id]).map (fun i => (i, mpid, itm)) := by
      rw [hstep2, hstep1, List.map_append, hmap, List.map_append]
      rfl
    have hall2 : ∀ e ∈ svFilter mpid itm
          (appendAt (appendAt sv (id, mpid, itm) v) (id, ypid, itm) v),
        e.2 ≠ [] ∧ ∀ x ∈ e.2, x = v := by
      rw [hstep2, hstep1]
      intro e he
      rcases List.mem_append.mp he with he | he
      · exact hall e he
      · rw [List.mem_singleton.mp he]
        exact ⟨by simp, by intro x hx; simpa using hx⟩
    have hkey2 : ∀ e ∈ appendAt (appendAt sv (id, mpid, itm) v) (id, ypid, itm) v,
        e.1.2.2 = itm → (e.1.2.1 = mpid ∧ e.1.1 ∈ done ++ [id]) ∨ e.1.2.1 = ypid := by
      intro e he hitem
      rcases appendAt_entries _ e he with he2 | ⟨hk, -⟩
      · rcases appendAt_entries _ e he2 with he3 | ⟨hk, -⟩
        · rcases hkey e he3 hitem with ⟨h1, h2⟩ | h1
          · exact Or.inl ⟨h1, List.mem_append_left _ h2⟩
          · exact Or.inr h1
        · rw [hk]
          exact Or.inl ⟨rfl, List.mem_append_right _ (List.mem_singleton_self id)⟩
      · rw [hk]
        exact Or.inr rfl
    obtain ⟨c1, c2, c3⟩ := ih (done ++ [id]) _ hnodup2 hmap2 hall2 hkey2
    refine ⟨?_, c2, ?_⟩
    · rw [c1, List.append_assoc]
      rfl
    · intro e he hitem
      rcases c3 e he hitem with ⟨h1, h2⟩ | h1
      · refine Or.inl ⟨h1, ?_⟩
        rw [List.append_assoc] at h2
        exact h2
      · exact Or.inr h1

/-- Re-processing an identical source row appends `v` to each of its existing
monthly entries: same keys, still all-`v`. -/
theorem fold_double_append_repeat_go (mpid ypid : Nat) (itm : String) (v : ℚ)
    (hpy : mpid ≠ ypid) :
    ∀ (ids : List Nat) (sv : List (SVKey × List ℚ)),
      (∀ i ∈ ids, ∃ l, ((i, mpid, itm), l) ∈ sv) →
      (∀ e ∈ svFilter mpid itm sv, e.2 ≠ [] ∧ ∀ x ∈ e.2, x = v) →
      (svFilter mpid itm (ids.foldl (fun acc rid =>
            appendAt (appendAt acc (rid, mpid, itm) v) (rid, ypid, itm) v) sv)).map
          Prod.fst
        = (svFilter mpid itm sv).map Prod.fst ∧
      (∀ e ∈ svFilter mpid itm (ids.foldl (fun acc rid =>
            appendAt (appendAt acc (rid, mpid, itm) v) (rid, ypid, itm) v) sv),
        e.2 ≠ [] ∧ ∀ x ∈ e.2, x = v) := by
  intro ids
  induction ids with
  | nil =>
    intro sv _ hall
    exact ⟨rfl, hall⟩
  | cons id rest ih =>
    intro sv hpres hall
    rw [List.foldl_cons]
    have hid := hpres id (List.mem_cons_self id rest)
    have hstep1 : (svFilter mpid itm (appendAt sv (id, mpid, itm) v)).map Prod.fst
        = (svFilter mpid itm sv).map Prod.fst :=
      svFilter_map_fst_appendAt_present v sv hid
    have hstep2 : svFilter mpid itm
          (appendAt (appendAt sv (id, mpid, itm) v) (id, ypid, itm) v)
        = svFilter mpid itm (appendAt sv (id, mpid, itm) v) :=
      svFilter_appendAt_not v (fun hc => hpy hc.1.symm) _
    have hall2 : ∀ e ∈ svFilter mpid itm
          (appendAt (appendAt sv (id, mpid, itm) v) (id, ypid, itm) v),
        e.2 ≠ [] ∧ ∀ x ∈ e.2, x = v := by
      rw [hstep2]
      exact svFilter_appendAt_allv hall
    have hpres2 : ∀ i ∈ rest, ∃ l,
        ((i, mpid, itm), l) ∈
          appendAt (appendAt sv (id, mpid, itm) v) (id, ypid, itm) v := by
      intro i hi
      exact appendAt_preserves_key _
        (appendAt_preserves_key _ (hpres i (List.mem_cons_of_mem id hi)))
    obtain ⟨c1, c2⟩ := ih _ hpres2 hall2
    refine ⟨?_, c2⟩
    rw [c1, hstep2, hstep1]

theorem get_or_create_period_postcond2 (s : ETLState) (y : Nat) (m : Option Nat) :
    alookup (y, m) (get_or_create_period s y m).2.period_map
      = some (get_or_create_period s y m).1 := by
  cases hl : alookup (y, m) s.period_map with
  | some pid =>
    rw [get_or_create_period, hl]
    exact hl
  | none =>
    rw [get_or_create_period, hl]
    exact alookup_append_self _ hl

/-- A row of a different item preserves the `Pre` state: still no entry of
this item in the aggregation map. -/
theorem food_row_preserves_pre {meta : String → FoodMetaRow} {areas : String → String}
    {st st' : ETLState} {sv sv' : List (SVKey × List ℚ)} {r2 : SeriesRow} {itm : String}
    (hitm2 : (meta r2.series_id).item_code ≠ itm)
    (hpre : ∀ e ∈ sv, e.1.2.2 ≠ itm)
    (h : food_process_row meta areas st sv r2 = Except.ok (st', sv')) :
    ∀ e ∈ sv', e.1.2.2 ≠ itm := by
  cases hval : r2.value with
  | none =>
    simp only [food_process_row, hval] at h
    injection h with hp
    injection hp with hpa hpb
    subst hpb
    exact hpre
  | some w =>
    cases hm2 : pyInt? (pyRemoveChar 'M' r2.period) with
    | none =>
      rw [food_process_row_parse_error meta areas st sv r2 w hval hm2] at h
      exact Except.noConfusion h
    | some mon2 =>
      rw [food_process_row_some meta areas st sv r2 w mon2 hval hm2] at h
      injection h with hp
      injection hp with hpa hpb
      subst hpb
      exact fold_double_append_key_pred _ _ _ w (fun k => k.2.2 ≠ itm) _ sv
        (fun rid _ => hitm2) (fun rid _ => hitm2) hpre

/-- A row of a different item preserves the fan-out postcondition of `r`. -/
theorem food_row_preserves_other {meta : String → FoodMetaRow}
    {areas : String → String} {st st' : ETLState}
    {sv sv' : List (SVKey × List ℚ)} {r2 : SeriesRow}
    {names : List String} {itm : String} {y mon : Nat} {v : ℚ}
    (hitm2 : (meta r2.series_id).item_code ≠ itm)
    (hpost : FanoutPost names itm y mon v st sv)
    (h : food_process_row meta areas st sv r2 = Except.ok (st', sv')) :
    FanoutPost names itm y mon v st' sv' := by
  obtain ⟨⟨u1, hu1⟩, ⟨u2, hu2⟩⟩ := food_process_row_maps_mono h
  obtain ⟨mpid, ypid, ids, h1, h2, h3, h4, h5, h6, h7, h8⟩ := hpost
  cases hval : r2.value with
  | none =>
    simp only [food_process_row, hval] at h
    injection h with hp
    injection hp with hpa hpb
    subst hpa
    subst hpb
    exact ⟨mpid, ypid, ids, h1, h2, h3, h4, h5, h6, h7, h8⟩
  | some w =>
    cases hm2 : pyInt? (pyRemoveChar 'M' r2.period) with
    | none =>
      rw [food_process_row_parse_error meta areas st sv r2 w hval hm2] at h
      exact Except.noConfusion h
    | some mon2 =>
      rw [food_process_row_some meta areas st sv r2 w mon2 hval hm2] at h
      injection h with hp
      injection hp with hpa hpb
      subst hpa
      subst hpb
      refine ⟨mpid, ypid, ids, ?_, ?_, h3, ?_, h5, ?_, ?_, ?_⟩
      · rw [hu2]
        exact alookup_append_of_eq_some u2 h1
      · rw [hu2]
        exact alookup_append_of_eq_some u2 h2
      · exact forall2_lookup_mono h4 ⟨u1, hu1⟩
      · rw [fold_double_append_filter_other _ _ _ w hitm2 _ sv]
        exact h6
      · rw [fold_double_append_filter_other _ _ _ w hitm2 _ sv]
        exact h7
      · refine fold_double_append_key_pred _ _ _ w
          (fun k => k.2.2 = itm → (k.2.1 = mpid ∧ k.1 ∈ ids) ∨ k.2.1 = ypid) _ sv
          ?_ ?_ h8
        · intro rid _ hitem
          exact absurd hitem hitm2
        · intro rid _ hitem
          exact absurd hitem hitm2

/-- Processing the multi-state row `r` from a state with no entries of its
item establishes the fan-out postcondition. -/
theorem food_row_establishes (meta : String → FoodMetaRow) (areas : String → String)
    {st st' : ETLState} {sv sv' : List (SVKey × List ℚ)} {r : SeriesRow} {v : ℚ}
    {mon : Nat}
    (hinv : Inv st)
    (hv : r.value = some v)
    (hmon : pyInt? (pyRemoveChar 'M' r.period) = some mon)
    (hnne : (extract_states_from_area_name (areas (meta r.series_id).area_code)).map
        normalize_state_name ≠ [])
    (hnd : ((extract_states_from_area_name (areas (meta r.series_id).area_code)).map
        normalize_state_name).Nodup)
    (hpre : ∀ e ∈ sv, e.1.2.2 ≠ (meta r.series_id).item_code)
    (h : food_process_row meta areas st sv r = Except.ok (st', sv')) :
    FanoutPost
      ((extract_states_from_area_name (areas (meta r.series_id).area_code)).map
        normalize_state_name)
      (meta r.series_id).item_code r.year mon v st' sv' := by
  rw [food_process_row_some meta areas st sv r v mon hv hmon] at h
  injection h with hp
  injection hp with hpa hpb
  subst hpa
  subst hpb
  set codes := extract_states_from_area_name (areas (meta r.series_id).area_code)
    with hcodes_def
  set itm := (meta r.series_id).item_code with hitm_def
  have hcodes_ne : codes ≠ [] := by
    intro hc
    rw [hc] at hnne
    exact hnne rfl
  have hcond := comma_or_exception_of_extract_ne_nil
    (areas (meta r.series_id).area_code) (hcodes_def ▸ hcodes_ne)
  have hreg : get_or_create_region st (areas (meta r.series_id).area_code) "region"
      = resolveStates st codes := by
    rw [hcodes_def]
    exact get_or_create_region_multi "region" hcond (hcodes_def ▸ hcodes_ne)
  rw [hreg]
  have hF0 : List.Forall₂
      (fun c i => alookup (normalize_state_name c)
        (resolveStates st codes).2.region_map = some i)
      codes (resolveStates st codes).1 :=
    resolveStates_lookup codes st (resolveStates st codes).1 (resolveStates st codes).2 rfl
  have hF : List.Forall₂
      (fun nm i => alookup nm (resolveStates st codes).2.region_map = some i)
      (codes.map normalize_state_name) (resolveStates st codes).1 :=
    List.forall₂_map_left_iff.mpr hF0
  have inv1 : Inv (resolveStates st codes).2 := inv_resolveStates codes st hinv
  have hids_nd : (resolveStates st codes).1.Nodup := forall2_lookup_nodup inv1 hF hnd
  have hm1 := get_or_create_period_postcond2 (resolveStates st codes).2 r.year (some mon)
  obtain ⟨u2, hu2⟩ := get_or_create_period_period_map_mono
    (get_or_create_period (resolveStates st codes).2 r.year (some mon)).2 r.year none
  have hm1' : alookup (r.year, some mon)
      (get_or_create_period
        (get_or_create_period (resolveStates st codes).2 r.year (some mon)).2
        r.year none).2.period_map
      = some (get_or_create_period (resolveStates st codes).2 r.year (some mon)).1 := by
    rw [hu2]
    exact alookup_append_of_eq_some u2 hm1
  have hy := get_or_create_period_postcond2
    (get_or_create_period (resolveStates st codes).2 r.year (some mon)).2 r.year none
  have inv2 := inv_get_or_create_period inv1 r.year (some mon)
  have inv3 := inv_get_or_create_period inv2 r.year none
  have hpy : (get_or_create_period (resolveStates st codes).2 r.year (some mon)).1
      ≠ (get_or_create_period
          (get_or_create_period (resolveStates st codes).2 r.year (some mon)).2
          r.year none).1 := by
    intro heq
    rw [heq] at hm1'
    have hk := period_cache_inj inv3 hm1' hy
    simpa using congrArg Prod.snd hk
  have hrm : (get_or_create_period
        (get_or_create_period (resolveStates st codes).2 r.year (some mon)).2
        r.year none).2.region_map
      = (resolveStates st codes).2.region_map := by
    rw [get_or_create_period_region_map, get_or_create_period_region_map]
  have hF3 : List.Forall₂
      (fun nm i => alookup nm
        (get_or_create_period
          (get_or_create_period (resolveStates st codes).2 r.year (some mon)).2
          r.year none).2.region_map = some i)
      (codes.map normalize_state_name) (resolveStates st codes).1 := by
    simp only [hrm]
    exact hF
  have hfilter0 : svFilter (get_or_create_period (resolveStates st codes).2
      r.year (some mon)).1 itm sv = [] := svFilter_eq_nil hpre
  obtain ⟨c1, c2, c3⟩ := fold_double_append_fresh_go
    (get_or_create_period (resolveStates st codes).2 r.year (some mon)).1
    (get_or_create_period
      (get_or_create_period (resolveStates st codes).2 r.year (some mon)).2
      r.year none).1
    itm v hpy (resolveStates st codes).1 [] sv
    (by simpa using hids_nd)
    (by rw [hfilter0]; rfl)
    (by rw [hfilter0]; intro e he; simp at he)
    (by intro e he hitem; exact absurd hitem (hpre e he))
  refine ⟨(get_or_create_period (resolveStates st codes).2 r.year (some mon)).1,
    (get_or_create_period
      (get_or_create_period (resolveStates st codes).2 r.year (some mon)).2
      r.year none).1,
    (resolveStates st codes).1, hm1', hy, hpy, hF3, hids_nd, ?_, c2, ?_⟩
  · rw [c1]
    rfl
  · intro e he hitem
    rcases c3 e he hitem with ⟨a, b⟩ | a
    · exact Or.inl ⟨a, by simpa using b⟩
    · exact Or.inr a

/-- Re-processing a duplicate copy of `r` preserves the fan-out postcondition:
every lookup hits the caches and each monthly entry just receives another
copy of `v`. -/
theorem food_row_preserves_repeat (meta : String → FoodMetaRow)
    (areas : String → String) {st st' : ETLState}
    {sv sv' : List (SVKey × List ℚ)} {r : SeriesRow} {v : ℚ} {mon : Nat}
    (hv : r.value = some v)
    (hmon : pyInt? (pyRemoveChar 'M' r.period) = some mon)
    (hnne : (extract_states_from_area_name (areas (meta r.series_id).area_code)).map
        normalize_state_name ≠ [])
    (hpost : FanoutPost
      ((extract_states_from_area_name (areas (meta r.series_id).area_code)).map
        normalize_state_name)
      (meta r.series_id).item_code r.year mon v st sv)
    (h : food_process_row meta areas st sv r = Except.ok (st', sv')) :
    FanoutPost
      ((extract_states_from_area_name (areas (meta r.series_id).area_code)).map
        normalize_state_name)
      (meta r.series_id).item_code r.year mon v st' sv' := by
  obtain ⟨mpid, ypid, ids, h1, h2, h3, h4, h5, h6, h7, h8⟩ := hpost
  set codes := extract_states_from_area_name (areas (meta r.series_id).area_code)
    with hcodes_def
  set itm := (meta r.series_id).item_code with hitm_def
  have hcodes_ne : codes ≠ [] := by
    intro hc
    rw [hc] at hnne
    exact hnne rfl
  have hcond := comma_or_exception_of_extract_ne_nil
    (areas (meta r.series_id).area_code) (hcodes_def ▸ hcodes_ne)
  have hreg : get_or_create_region st (areas (meta r.series_id).area_code) "region"
      = resolveStates st codes := by
    rw [hcodes_def]
    exact get_or_create_region_multi "region" hcond (hcodes_def ▸ hcodes_ne)
  have hF0c : List.Forall₂
      (fun c i => alookup (normalize_state_name c) st.region_map = some i)
      codes ids := List.forall₂_map_left_iff.mp h4
  have hall_hits : resolveStates st codes = (ids, st) :=
    resolveStates_of_all_hits hF0c
  have hp1 : get_or_create_period st r.year (some mon) = (mpid, st) := by
    rw [get_or_create_period, h1]
  have hp2 : get_or_create_period st r.year none = (ypid, st) := by
    rw [get_or_create_period, h2]
  have hstep_eq : food_process_row meta areas st sv r
      = Except.ok (st, ids.foldl (fun acc rid =>
          appendAt (appendAt acc (rid, mpid, itm) v) (rid, ypid, itm) v) sv) := by
    rw [food_process_row_some meta areas st sv r v mon hv hmon, hreg, hall_hits]
    dsimp only
    rw [hp1]
    dsimp only
    rw [hp2]
  rw [hstep_eq] at h
  injection h with hp
  injection hp with hpa hpb
  subst hpa
  subst hpb
  have hpres : ∀ i ∈ ids, ∃ l, ((i, mpid, itm), l) ∈ sv := by
    intro i hi
    have hmm : (i, mpid, itm) ∈ (svFilter mpid itm sv).map Prod.fst := by
      rw [h6]
      exact List.mem_map_of_mem _ hi
    obtain ⟨e, he, hfst⟩ := List.mem_map.mp hmm
    refine ⟨e.2, ?_⟩
    rw [← hfst]
    exact (mem_svFilter.mp he).1
  obtain ⟨c1, c2⟩ := fold_double_append_repeat_go mpid ypid itm v h3 ids sv hpres h7
  refine ⟨mpid, ypid, ids, h1, h2, h3, h4, h5, ?_, c2, ?_⟩
  · rw [c1, h6]
  · refine fold_double_append_key_pred mpid ypid itm v
      (fun k => k.2.2 = itm → (k.2.1 = mpid ∧ k.1 ∈ ids) ∨ k.2.1 = ypid) ids sv
      ?_ ?_ h8
    · intro rid hr _
      exact Or.inl ⟨rfl, hr⟩
    · intro rid _ _
      exact Or.inr rfl

/-- Main induction over the source rows for the fan-out claim. -/
theorem food_collect_fanout_go (meta : String → FoodMetaRow) (areas : String → String)
    (r : SeriesRow) (v : ℚ) (mon : Nat)
    (hv : r.value = some v)
    (hmon : pyInt? (pyRemoveChar 'M' r.period) = some mon)
    (hnne : (extract_states_from_area_name (areas (meta r.series_id).area_code)).map
        normalize_state_name ≠ [])
    (hnd : ((extract_states_from_area_name (areas (meta r.series_id).area_code)).map
        normalize_state_name).Nodup) :
    ∀ (rows : List SeriesRow) (s0 : ETLState) (sv0 : List (SVKey × List ℚ))
      (stF : ETLState) (sv : List (SVKey × List ℚ)),
      Inv s0 →
      (∀ r2 ∈ rows, r2 ≠ r →
        (meta r2.series_id).item_code ≠ (meta r.series_id).item_code) →
      ((∀ e ∈ sv0, e.1.2.2 ≠ (meta r.series_id).item_code) ∨
        FanoutPost
          ((extract_states_from_area_name (areas (meta r.series_id).area_code)).map
            normalize_state_name)
          (meta r.series_id).item_code r.year mon v s0 sv0) →
      List.foldlM (fun acc row => food_process_row meta areas acc.1 acc.2 row)
        ((s0, sv0) : ETLState × List (SVKey × List ℚ)) rows = Except.ok (stF, sv) →
      (Inv stF ∧
       (r ∈ rows →
         FanoutPost
           ((extract_states_from_area_name (areas (meta r.series_id).area_code)).map
             normalize_state_name)
           (meta r.series_id).item_code r.year mon v stF sv) ∧
       (FanoutPost
           ((extract_states_from_area_name (areas (meta r.series_id).area_code)).map
             normalize_state_name)
           (meta r.series_id).item_code r.year mon v s0 sv0 →
         FanoutPost
           ((extract_states_from_area_name (areas (meta r.series_id).area_code)).map
             normalize_state_name)
           (meta r.series_id).item_code r.year mon v stF sv)) := by
  intro rows
  induction rows with
  | nil =>
    intro s0 sv0 stF sv hinv _ _ hcol
    rw [List.foldlM_nil] at hcol
    injection hcol with hp
    injection hp with hpa hpb
    subst hpa
    subst hpb
    refine ⟨hinv, ?_, fun hp0 => hp0⟩
    intro hc
    simp at hc
  | cons row2 rest ih =>
    intro s0 sv0 stF sv hinv huniq hdisj hcol
    rw [List.foldlM_cons] at hcol
    cases hstep : food_process_row meta areas s0 sv0 row2 with
    | error e =>
      rw [hstep] at hcol
      exact Except.noConfusion hcol
    | ok p =>
      obtain ⟨su, svu⟩ := p
      rw [hstep] at hcol
      have hcol2 : List.foldlM (fun acc row => food_process_row meta areas acc.1 acc.2 row)
          ((su, svu) : ETLState × List (SVKey × List ℚ)) rest = Except.ok (stF, sv) := hcol
      have hinvu : Inv su := inv_food_process_row hinv hstep
      have huniq2 : ∀ r2 ∈ rest, r2 ≠ r →
          (meta r2.series_id).item_code ≠ (meta r.series_id).item_code :=
        fun r2 h2 => huniq r2 (List.mem_cons_of_mem _ h2)
      by_cases hr2 : row2 = r
      · subst hr2
        have hpostu : FanoutPost
            ((extract_states_from_area_name (areas (meta row2.series_id).area_code)).map
              normalize_state_name)
            (meta row2.series_id).item_code row2.year mon v su svu := by
          rcases hdisj with hpre | hpost0
          · exact food_row_establishes meta areas hinv hv hmon hnne hnd hpre hstep
          · exact food_row_preserves_repeat meta areas hv hmon hnne hpost0 hstep
        obtain ⟨hi1, hi2, hi3⟩ := ih su svu stF sv hinvu huniq2 (Or.inr hpostu) hcol2
        exact ⟨hi1, fun _ => hi3 hpostu, fun _ => hi3 hpostu⟩
      · have hitm2 : (meta row2.series_id).item_code ≠ (meta r.series_id).item_code :=
          huniq row2 (List.mem_cons_self _ _) hr2
        rcases hdisj with hpre | hpost0
        · have hpreu := food_row_preserves_pre hitm2 hpre hstep
          obtain ⟨hi1, hi2, hi3⟩ := ih su svu stF sv hinvu huniq2 (Or.inl hpreu) hcol2
          refine ⟨hi1, ?_, ?_⟩
          · intro hrmem
            rcases List.mem_cons.mp hrmem with hc | hc
            · exact absurd hc.symm hr2
            · exact hi2 hc
          · intro hp0
            exact hi3 (food_row_preserves_other hitm2 hp0 hstep)
        · have hpostu := food_row_preserves_other hitm2 hpost0 hstep
          obtain ⟨hi1, hi2, hi3⟩ := ih su svu stF sv hinvu huniq2 (Or.inr hpostu) hcol2
          refine ⟨hi1, ?_, fun _ => hi3 hpostu⟩
          intro hrmem
          rcases List.mem_cons.mp hrmem with hc | hc
          · exact absurd hc.symm hr2
          · exact hi2 hc

/-! ## Claim theorem: C2 -/

/-- **C2.** For every source row whose area label resolves to `n ≥ 1` distinct
state names and whose item no other row carries, the food-price load records
exactly `n` Observations for that row's monthly period and item — one per
resolved state region id — and every one of them carries the same unsplit,
unweighted value as the source row (each collected list is all-`v`, so the
upserted price is `v` itself). -/
theorem source_row_fans_out_per_state
    (meta : String → FoodMetaRow) (areas : String → String)
    (s0 stF : ETLState) (rows : List SeriesRow) (sv : List (SVKey × List ℚ))
    (r : SeriesRow) (v : ℚ) (mon : Nat)
    (hinv : Inv s0)
    (hv : r.value = some v)
    (hmon : pyInt? (pyRemoveChar 'M' r.period) = some mon)
    (hnne : (extract_states_from_area_name (areas (meta r.series_id).area_code)).map
        normalize_state_name ≠ [])
    (hnd : ((extract_states_from_area_name (areas (meta r.series_id).area_code)).map
        normalize_state_name).Nodup)
    (huniq : ∀ r2 ∈ rows, r2 ≠ r →
      (meta r2.series_id).item_code ≠ (meta r.series_id).item_code)
    (hr : r ∈ rows)
    (hcollect : food_collect meta areas s0 rows = Except.ok (stF, sv)) :
    ∃ mpid ids,
      alookup (r.year, some mon) stF.period_map = some mpid ∧
      List.Forall₂ (fun nm i => alookup nm stF.region_map = some i)
        ((extract_states_from_area_name (areas (meta r.series_id).area_code)).map
          normalize_state_name) ids ∧
      ids.Nodup ∧
      (svFilter mpid (meta r.series_id).item_code sv).length
        = ((extract_states_from_area_name (areas (meta r.series_id).area_code)).map
            normalize_state_name).length ∧
      (svFilter mpid (meta r.series_id).item_code sv).map Prod.fst
        = ids.map (fun i => (i, mpid, (meta r.series_id).item_code)) ∧
      (∀ e ∈ svFilter mpid (meta r.series_id).item_code sv,
        (∀ x ∈ e.2, x = v) ∧ (e.1, v) ∈ food_inserts sv) := by
  obtain ⟨hi1, hi2, -⟩ := food_collect_fanout_go meta areas r v mon hv hmon hnne hnd
    rows s0 [] stF sv hinv huniq (Or.inl (by intro e he; simp at he)) hcollect
  obtain ⟨mpid, ypid, ids, h1, h2, h3, h4, h5, h6, h7, h8⟩ := hi2 hr
  refine ⟨mpid, ids, h1, h4, h5, ?_, h6, ?_⟩
  · have hlen := congrArg List.length h6
    rw [List.length_map, List.length_map] at hlen
    rw [hlen]
    exact (List.Forall₂.length_eq h4).symm
  · intro e he
    have hprops := h7 e he
    refine ⟨hprops.2, ?_⟩
    have hmean : e.2.sum / e.2.length = v := mean_const hprops.1 hprops.2
    have hmm := food_inserts_mem
      (show (e.1, e.2) ∈ sv from (mem_svFilter.mp he).1) hprops.1
    rw [hmean] at hmm
    exact hmm

/-- Witness for C2: the two-row example (`exRowA` over the Chicago metro area
resolving to Illinois, Indiana and Wisconsin) yields exactly three monthly
Observations for `ITEM_A`, all carrying the value 7. -/
theorem source_row_fans_out_per_state_witness :
    ∃ mpid ids,
      alookup (exRowA.year, some 1) exStF.period_map = some mpid ∧
      List.Forall₂ (fun nm i => alookup nm exStF.region_map = some i)
        ((extract_states_from_area_name
            (exAreas2 (exFoodMeta2 exRowA.series_id).area_code)).map
          normalize_state_name) ids ∧
      ids.Nodup ∧
      (svFilter mpid (exFoodMeta2 exRowA.series_id).item_code exSv).length
        = ((extract_states_from_area_name
              (exAreas2 (exFoodMeta2 exRowA.series_id).area_code)).map
            normalize_state_name).length ∧
      (svFilter mpid (exFoodMeta2 exRowA.series_id).item_code exSv).map Prod.fst
        = ids.map (fun i => (i, mpid, (exFoodMeta2 exRowA.series_id).item_code)) ∧
      (∀ e ∈ svFilter mpid (exFoodMeta2 exRowA.series_id).item_code exSv,
        (∀ x ∈ e.2, x = (7 : ℚ)) ∧ (e.1, (7 : ℚ)) ∈ food_inserts exSv) :=
  source_row_fans_out_per_state exFoodMeta2 exAreas2 etlInit exStF [exRowA, exRowB] exSv
    exRowA 7 1 inv_init rfl rfl (by decide) (by decide) (by decide) (by decide) rfl

end DbmsEtl
